import Mathlib

/-!
Verification of the material-recommendation core
(`utils/processamento.py`, `utils/recomendacao.py`).

The embedding models a pandas DataFrame as a list of named columns of
cells, where a cell is missing (`na`, modelling NaN/None), a string, or a
finite number (`ℚ`; Python floats that matter here are exact decimals).
Column dtypes (`int64`, `float64`, `object`) are tracked because
`astype(str)` renders an integer column cell `1` as `"1"` but a float
column cell `1.0` as `"1.0"`, and the yes/no vocabulary map only
recognises `"1"`/`"0"`.
-/

set_option maxRecDepth 100000
set_option maxHeartbeats 1000000

deriving instance DecidableEq for Except

namespace IAMat

/-- One cell of a DataFrame: missing (NaN/None), a string, or a finite number. -/
inductive Cell where
  | na : Cell
  | str : String → Cell
  | num : ℚ → Cell
deriving DecidableEq

/-- Column dtype, as pandas tracks it. -/
inductive Dtype where
  | obj : Dtype
  | i64 : Dtype
  | f64 : Dtype
deriving DecidableEq

/-- A DataFrame column: a dtype and the cell list (one cell per row). -/
structure Col where
  dtype : Dtype
  cells : List Cell
deriving DecidableEq

/-- A DataFrame: a row count and named columns (each of length `nrows`). -/
structure DF where
  nrows : Nat
  cols : List (String × Col)
deriving DecidableEq

def Cell.isNa : Cell → Bool
  | .na => true
  | _ => false

def Cell.isStr : Cell → Bool
  | .str _ => true
  | _ => false

def Cell.numVal : Cell → Option ℚ
  | .num q => some q
  | _ => none

/-- The cell holds an integer value. -/
def Cell.isIntNum : Cell → Prop
  | .num q => q.den = 1
  | _ => False

/-- The cell is a number or missing (never a string). -/
def Cell.numOrNa : Cell → Prop
  | .str _ => False
  | _ => True

instance : DecidablePred Cell.isIntNum := by
  intro x
  unfold Cell.isIntNum
  cases x <;> infer_instance

instance : DecidablePred Cell.numOrNa := by
  intro x
  unfold Cell.numOrNa
  cases x <;> infer_instance

/-- `int64` columns hold integers and cannot hold NaN; `float64` columns hold
numbers or NaN; `object` columns hold anything. -/
def Col.WFd (c : Col) : Prop :=
  match c.dtype with
  | .obj => True
  | .i64 => ∀ x ∈ c.cells, x.isIntNum
  | .f64 => ∀ x ∈ c.cells, x.numOrNa

instance (c : Col) : Decidable c.WFd := by
  unfold Col.WFd
  cases c.dtype <;> infer_instance

/-- Well-formed DataFrame: every column has `nrows` cells, column names are
distinct, and every column respects its dtype. -/
def DF.WF (df : DF) : Prop :=
  (∀ p ∈ df.cols, (Prod.snd p).cells.length = df.nrows)
  ∧ (df.cols.map Prod.fst).Nodup
  ∧ (∀ p ∈ df.cols, (Prod.snd p).WFd)

instance (df : DF) : Decidable df.WF := by
  unfold DF.WF
  infer_instance

/-- `df[name]` lookup (first column of that name). -/
def DF.find (df : DF) (name : String) : Option Col :=
  (df.cols.find? (fun p => p.1 == name)).map Prod.snd

/-- `name in df.columns`. -/
def DF.hasCol (df : DF) (name : String) : Bool :=
  df.cols.any (fun p => p.1 == name)

/-- `df[name] = col`: replace the column in place if the name exists,
otherwise append it at the end (pandas column-assignment semantics). -/
def DF.setCol (df : DF) (name : String) (c : Col) : DF :=
  if df.hasCol name then
    { df with cols := df.cols.map (fun p => if p.1 == name then (name, c) else p) }
  else
    { df with cols := df.cols ++ [(name, c)] }

/-- Apply `g` to the column `name` when it exists (no-op otherwise). -/
def DF.transformCol (df : DF) (name : String) (g : Col → Col) : DF :=
  match df.find name with
  | some c => df.setCol name (g c)
  | none => df

/-! ### String helpers (modelling Python `str.strip`, `str.lower`) -/

def isSpaceChar (c : Char) : Bool :=
  c == ' ' || c == '\t' || c == '\n' || c == '\r' || c == '\x0b' || c == '\x0c'

/-- Python `str.strip()` (whitespace at both ends). -/
def pyStrip (s : String) : String :=
  .mk (((s.data.dropWhile isSpaceChar).reverse.dropWhile isSpaceChar).reverse)

/-- ASCII lowering; the vocabulary keys and the inputs exercised here are
already lowercase beyond ASCII, so accented capitals are left alone. -/
def lowerChar (c : Char) : Char :=
  if 'A' ≤ c ∧ c ≤ 'Z' then Char.ofNat (c.toNat + 32) else c

/-- Python `str.lower()` restricted to ASCII letters. -/
def pyLower (s : String) : String :=
  .mk (s.data.map lowerChar)

/-- `needle` starts `hay`. -/
def leadsWith : List Char → List Char → Bool
  | [], _ => true
  | _ :: _, [] => false
  | a :: as, b :: bs => a == b && leadsWith as bs

/-- `needle in hay` (Python substring test). -/
def hasSub : List Char → List Char → Bool
  | hay, needle =>
    leadsWith needle hay ||
      match hay with
      | [] => false
      | _ :: t => hasSub t needle

/-! ### Vocabulary maps of `utils/processamento.py` -/

/-- `_MAP_CUSTO` — note: only accented spellings. -/
def MAP_CUSTO : List (String × ℚ) :=
  [("baixo", 0), ("baixo-médio", 1), ("médio", 2), ("médio-alto", 3), ("alto", 4)]

/-- `_MAP_SIMNAO` (the `"não "` key is unreachable after `strip`, kept for fidelity). -/
def MAP_SIMNAO : List (String × ℚ) :=
  [("não", 0), ("nao", 0), ("não ", 0), ("sim", 1), ("1", 1), ("0", 0)]

/-- `dens_map` inside `mapear_valores`. -/
def densMap : List (String × ℚ) :=
  [("leve", 1000), ("médio", 5000), ("medio", 5000), ("pesado", 8000)]

/-- `res_map` inside `mapear_valores`. -/
def resMap : List (String × ℚ) :=
  [("baixa", 10), ("média", 100), ("media", 100), ("alta", 400)]

/-- `cond_map` inside `mapear_valores`. -/
def condMap : List (String × ℚ) :=
  [("baixa", 1/10), ("média", 1), ("media", 1), ("alta", 100)]

/-- Python `dict.get(k, default-missing)`. -/
def lookupMap (m : List (String × ℚ)) (k : String) : Option ℚ :=
  (m.find? (fun p => p.1 == k)).map Prod.snd

def cellOfLookup (r : Option ℚ) : Cell :=
  match r with
  | some q => .num q
  | none => .na

/-! ### `astype(str)` and numeric rendering -/

/-- Python `repr` of an integer. -/
def intStr (n : ℤ) : String :=
  if n < 0 then "-" ++ toString n.natAbs else toString n.natAbs

/-- String a float column cell takes under `astype(str)`. Exact for integral
values (`1.0` → `"1.0"`); for non-integral values the digits differ from
Python's decimal rendering, but like Python's they contain a separator and
match no vocabulary key, which is all the pipeline observes. -/
def floatStr (q : ℚ) : String :=
  if q.den = 1 then intStr q.num ++ ".0" else intStr q.num ++ "/" ++ toString q.den

/-- `astype(str)` on one cell, given the column dtype. Object cells holding
integral numbers render without a fractional part (Python `str(2) = "2"`). -/
def astypeStr (d : Dtype) (x : Cell) : String :=
  match x with
  | .na => "nan"
  | .str s => s
  | .num q =>
    match d with
    | .i64 => intStr q.num
    | .f64 => floatStr q
    | .obj => if q.den = 1 then intStr q.num else floatStr q

/-! ### Sorting and median -/

/-- Insert into a `≤`-sorted list of rationals. -/
def insertQ (x : ℚ) : List ℚ → List ℚ
  | [] => [x]
  | y :: ys => if x ≤ y then x :: y :: ys else y :: insertQ x ys

/-- Insertion sort on rationals (ascending). -/
def sortQ : List ℚ → List ℚ
  | [] => []
  | x :: xs => insertQ x (sortQ xs)

/-- `Series.median()` over the non-missing values: middle element of the
sorted values, or the mean of the two middle elements; `none` (NaN) when
there are no values. -/
def median (l : List ℚ) : Option ℚ :=
  let s := sortQ l
  if s.length = 0 then none
  else if s.length % 2 = 1 then s.get? (s.length / 2)
  else
    match s.get? (s.length / 2 - 1), s.get? (s.length / 2) with
    | some a, some b => some ((a + b) / 2)
    | _, _ => none

/-! ### The Normalizer: `mapear_valores` -/

/-- `.str.strip()` on one cell of an object column: pandas's `.str` accessor
yields NaN for non-string entries. -/
def strStripCell : Cell → Cell
  | .str s => .str (pyStrip s)
  | _ => .na

/-- The body of `_map_col_if_exists`'s lambda, `mapa.get(v.lower(), nan)`,
applied to one already-stripped cell. A missing cell reaches the lambda as a
float NaN and `v.lower()` raises `AttributeError`; the error is modelled as
`Except.error`. -/
def mapLowerCell (mapa : List (String × ℚ)) : Cell → Except Unit Cell
  | .str s => .ok (cellOfLookup (lookupMap mapa (pyLower s)))
  | _ => .error ()

/-- `series.map(lambda v: mapa.get(v.lower(), nan))` over stripped cells. -/
def mapCustoCells (mapa : List (String × ℚ)) : List Cell → Except Unit (List Cell)
  | [] => .ok []
  | x :: xs =>
    match mapLowerCell mapa (strStripCell x), mapCustoCells mapa xs with
    | .ok y, .ok ys => .ok (y :: ys)
    | .error e, _ => .error e
    | .ok _, .error e => .error e

/-- Dtype pandas infers for the series a vocabulary `.map` returns:
`float64` when the dict values are floats, when any entry is NaN, or when
the series is empty; `int64` when every entry hit an integer dict value. -/
def mappedDtype (intMap : Bool) (cells : List Cell) : Dtype :=
  if intMap && !cells.isEmpty && !cells.any Cell.isNa then .i64 else .f64

def mkMappedCol (intMap : Bool) (cells : List Cell) : Col :=
  ⟨mappedDtype intMap cells, cells⟩

/-- `_map_col_if_exists(df, col, mapa)`: `none` when the column is absent;
for an `object` column, strip/lower/map each cell (which can raise, see
`mapLowerCell`); any other dtype is returned as is. -/
def map_col_if_exists (df : DF) (col : String) (mapa : List (String × ℚ)) :
    Except Unit (Option Col) :=
  match df.find col with
  | none => .ok none
  | some c =>
    if c.dtype = .obj then
      match mapCustoCells mapa c.cells with
      | .ok cells => .ok (some (mkMappedCol true cells))
      | .error e => .error e
    else
      .ok (some c)

/-- `col.astype(str).str.strip().str.lower().map(lambda v: m.get(v, nan))`,
the pattern used for the `peso`/`resistencia`/`condutividade`/`reciclavel`/
`biodegradavel` columns (total: `astype(str)` turns every cell into a
string first). -/
def wordMapCol (intMap : Bool) (m : List (String × ℚ)) (c : Col) : Col :=
  mkMappedCol intMap
    (c.cells.map (fun x => cellOfLookup (lookupMap m (pyLower (pyStrip (astypeStr c.dtype x))))))

/-- The canonical feature list `_FEATURES` / `features`. -/
def features : List String :=
  ["custo_index", "densidade_kg_m3", "tensile_strength_MPa",
   "thermal_conductivity_W_mK", "reciclavel", "biodegradavel", "melting_point_C"]

/-- The per-feature defaults used when a whole column is missing. -/
def defaultFor (f : String) : ℚ :=
  if f = "custo_index" then 3
  else if f = "densidade_kg_m3" then 2000
  else if f = "tensile_strength_MPa" then 50
  else if f = "thermal_conductivity_W_mK" then 1
  else if f = "reciclavel" then 1
  else if f = "biodegradavel" then 0
  else 300

/-- `pd.to_numeric(errors='coerce')` on one cell: numbers and NaN pass
through; strings parse as decimal literals (optional sign, optional
fractional part) or coerce to NaN. -/
def toNumericCell (x : Cell) : Cell :=
  match x with
  | .num q => .num q
  | .na => .na
  | .str s => cellOfLookup (parseDec s.data)
where
  /-- Decimal-literal reading used by the coercion. -/
  parseDec (cs : List Char) : Option ℚ :=
    let (neg, ds) := match cs with
      | '-' :: t => (true, t)
      | t => (false, t)
    let intPart := ds.takeWhile Char.isDigit
    let rest := ds.dropWhile Char.isDigit
    if intPart.isEmpty then none
    else
      let iv : ℚ := (digitsVal intPart : ℤ)
      match rest with
      | [] => some (if neg then -iv else iv)
      | '.' :: fs =>
        let frac := fs.takeWhile Char.isDigit
        if fs.dropWhile Char.isDigit = [] ∧ ¬frac.isEmpty then
          let fv : ℚ := (digitsVal frac : ℤ) / ((10 : ℚ) ^ frac.length)
          some (if neg then -(iv + fv) else iv + fv)
        else none
      | _ => none
  digitsVal (ds : List Char) : ℕ :=
    ds.foldl (fun a c => a * 10 + (c.toNat - 48)) 0

/-- The cell is a number with integral value (dtype inference helper). -/
def Cell.isIntCell : Cell → Bool
  | .num q => q.den == 1
  | _ => false

/-- `pd.to_numeric` on a column: numeric dtypes are untouched valuewise;
an object column is coerced cellwise and its dtype inferred (`int64` only
for a nonempty all-integer result with no NaN). -/
def toNumericCol (c : Col) : Col :=
  match c.dtype with
  | .i64 => ⟨.i64, c.cells.map toNumericCell⟩
  | .f64 => ⟨.f64, c.cells.map toNumericCell⟩
  | .obj =>
    let cs := c.cells.map toNumericCell
    ⟨if !cs.isEmpty && cs.all Cell.isIntCell && !cs.any Cell.isNa then .i64 else .f64, cs⟩

/-- `out[f].fillna(v)` cellwise. -/
def fillNaCell (v : ℚ) (x : Cell) : Cell :=
  if x.isNa then .num v else x

/-- The median-imputation step for one feature column: `if out[f].isna().any()`
fill with the column median, or with the per-feature default when the median
is NaN (whole column missing). `fillna` keeps the (float) dtype. -/
def imputeCol (default : ℚ) (c : Col) : Col :=
  if c.cells.any Cell.isNa then
    match median (c.cells.filterMap Cell.numVal) with
    | some m => ⟨c.dtype, c.cells.map (fillNaCell m)⟩
    | none => ⟨c.dtype, c.cells.map (fillNaCell default)⟩
  else c

/-- Step 1 of `mapear_valores`: derive `custo_index` from `custo`. -/
def stepCusto (df : DF) : Except Unit DF :=
  if !df.hasCol "custo_index" && df.hasCol "custo" then
    match map_col_if_exists df "custo" MAP_CUSTO with
    | .ok (some c) => .ok (df.setCol "custo_index" c)
    | .ok none => .ok df
    | .error e => .error e
  else
    .ok df

/-- Derive a canonical column from a categorical alias via a word map
(steps for `peso`, `resistencia`, `condutividade`). -/
def stepAlias (df : DF) (target source : String) (intMap : Bool)
    (m : List (String × ℚ)) : DF :=
  if !df.hasCol target && df.hasCol source then
    match df.find source with
    | some c => df.setCol target (wordMapCol intMap m c)
    | none => df
  else df

/-- Re-map a boolean vocabulary column in place when present. -/
def stepSimNao (df : DF) (name : String) : DF :=
  df.transformCol name (wordMapCol true MAP_SIMNAO)

/-- `melting_point_C <- temperatura_max` direct copy when absent. -/
def stepMelting (df : DF) : DF :=
  if !df.hasCol "melting_point_C" && df.hasCol "temperatura_max" then
    match df.find "temperatura_max" with
    | some c => df.setCol "melting_point_C" c
    | none => df
  else df

/-- Synthesize any still-missing canonical column as all-NaN (`float64`). -/
def stepSynth (df : DF) : DF :=
  features.foldl
    (fun d f => if d.hasCol f then d else d.setCol f ⟨.f64, List.replicate d.nrows .na⟩) df

/-- Apply a per-column transform to each named column in turn. -/
def applyAll (G : String → Col → Col) (l : List String) (df : DF) : DF :=
  l.foldl (fun d f => d.transformCol f (G f)) df

/-- `out[features] = out[features].apply(pd.to_numeric, errors='coerce')`. -/
def stepToNumeric (df : DF) : DF :=
  applyAll (fun _ => toNumericCol) features df

/-- The median/default imputation loop over the seven features. -/
def stepImpute (df : DF) : DF :=
  applyAll (fun f => imputeCol (defaultFor f)) features df

/-- Column selection `out[ns]`. -/
def assemble (df : DF) (ns : List String) : List (String × Col) :=
  ns.filterMap (fun n => (df.find n).map (fun c => (n, c)))

/-- `out[keep]`: identity columns if present, then the seven features. -/
def stepKeep (df : DF) : DF :=
  { nrows := df.nrows
    cols := assemble df ((["id", "nome_material"].filter (fun n => df.hasCol n)) ++ features) }

/-- Steps 2–7 of `mapear_valores`: the remaining aliasing steps, the
boolean re-mapping, and the `temperatura_max` copy. -/
def d7of (d1 : DF) : DF :=
  stepMelting (stepSimNao (stepSimNao
    (stepAlias (stepAlias (stepAlias d1
        "densidade_kg_m3" "peso" true densMap)
        "tensile_strength_MPa" "resistencia" false resMap)
        "thermal_conductivity_W_mK" "condutividade" false condMap)
    "reciclavel") "biodegradavel")

/-- Steps 2–10 of `mapear_valores` (aliasing of the remaining columns,
boolean normalization, synthesis, coercion and imputation — everything
after the `custo` aliasing and before the final column selection); these
cannot fail. -/
def tail9 (d1 : DF) : DF :=
  stepImpute (stepToNumeric (stepSynth (d7of d1)))

/-- Steps 2–11 of `mapear_valores` (everything after the `custo` aliasing). -/
def pipelineRest (d1 : DF) : DF :=
  stepKeep (tail9 d1)

/-- `mapear_valores(df)`: the full Normalizer.  The only failure path is the
`custo` aliasing (see `mapLowerCell`). -/
def mapear_valores (df : DF) : Except Unit DF :=
  match stepCusto df with
  | .ok d1 => .ok (pipelineRest d1)
  | .error e => .error e

/-! ### Regex matchers of `texto_para_vetor`

Each Python pattern is embedded as a leftmost-`re.search` over the char
list.  In every pattern a bounded digit group is followed by `\s*` and a
literal unit, so at a given start position the greedy digit group can only
succeed by taking the whole leading digit run (a shorter take leaves a digit
where the non-digit unit must start); the search then scans positions left
to right. -/

def digitsNat (ds : List Char) : ℕ :=
  ds.foldl (fun a c => a * 10 + (c.toNat - 48)) 0

/-- `(\d{2,5})\s*(kg/m3|kg/m³)` at one position. -/
def matchKgAt (cs : List Char) : Option ℚ :=
  let run := cs.takeWhile Char.isDigit
  if 2 ≤ run.length ∧ run.length ≤ 5 then
    let rest := (cs.dropWhile Char.isDigit).dropWhile isSpaceChar
    if leadsWith "kg/m3".data rest || leadsWith "kg/m³".data rest then
      some (digitsNat run : ℕ)
    else none
  else none

def searchKg : List Char → Option ℚ
  | [] => none
  | c :: t =>
    match matchKgAt (c :: t) with
    | some v => some v
    | none => searchKg t

/-- A digit group of `lo ≤ len ≤ hi` digits with an optional `(\.\d+)?`
fraction, followed by `\s*` and a unit recognised by `unit`.  Returns the
captured value.  Shared by the `g/cm3` and `w/m.k` patterns. -/
def matchDecUnitAt (lo hi : ℕ) (unit : List Char → Bool) (cs : List Char) : Option ℚ :=
  let run := cs.takeWhile Char.isDigit
  if lo ≤ run.length ∧ run.length ≤ hi then
    let iv : ℚ := (digitsNat run : ℕ)
    let rest := cs.dropWhile Char.isDigit
    match rest with
    | '.' :: fs =>
      let frac := fs.takeWhile Char.isDigit
      if ¬frac.isEmpty ∧ unit (((fs.dropWhile Char.isDigit)).dropWhile isSpaceChar) then
        some (iv + (digitsNat frac : ℕ) / ((10 : ℚ) ^ frac.length))
      else if unit (rest.dropWhile isSpaceChar) then some iv
      else none
    | _ => if unit (rest.dropWhile isSpaceChar) then some iv else none
  else none

def searchDecUnit (lo hi : ℕ) (unit : List Char → Bool) : List Char → Option ℚ
  | [] => none
  | c :: t =>
    match matchDecUnitAt lo hi unit (c :: t) with
    | some v => some v
    | none => searchDecUnit lo hi unit t

def gcmUnit (cs : List Char) : Bool :=
  leadsWith "g/cm3".data cs || leadsWith "g/cm³".data cs

/-- `(\d{1,4}(\.\d+)?)\s*(g/cm3|g/cm³)`. -/
def searchGcm (cs : List Char) : Option ℚ :=
  searchDecUnit 1 4 gcmUnit cs

/-- The `(w/m.k|w/m·k|w/mk|w/m·k)` alternation: `.` is the regex wildcard. -/
def condUnit (cs : List Char) : Bool :=
  match cs with
  | 'w' :: '/' :: 'm' :: _ :: 'k' :: _ => true
  | 'w' :: '/' :: 'm' :: 'k' :: _ => true
  | _ => false

/-- `(\d{1,4}(\.\d+)?)\s*(w/m.k|w/m·k|w/mk|w/m·k)`. -/
def searchCond (cs : List Char) : Option ℚ :=
  searchDecUnit 1 4 condUnit cs

/-- `(\d{2,4})\s*(mpa)` at one position. -/
def matchMpaAt (cs : List Char) : Option ℚ :=
  let run := cs.takeWhile Char.isDigit
  if 2 ≤ run.length ∧ run.length ≤ 4 then
    if leadsWith "mpa".data ((cs.dropWhile Char.isDigit).dropWhile isSpaceChar) then
      some (digitsNat run : ℕ)
    else none
  else none

def searchMpa : List Char → Option ℚ
  | [] => none
  | c :: t =>
    match matchMpaAt (c :: t) with
    | some v => some v
    | none => searchMpa t

/-- `(-?\d{1,4})\s*°?\s*c` at one position. -/
def matchTempAt (cs : List Char) : Option ℚ :=
  let (neg, ds) := match cs with
    | '-' :: t => (true, t)
    | t => (false, t)
  let run := ds.takeWhile Char.isDigit
  if 1 ≤ run.length ∧ run.length ≤ 4 then
    let rest := (ds.dropWhile Char.isDigit).dropWhile isSpaceChar
    let rest2 := match rest with
      | '°' :: t => t.dropWhile isSpaceChar
      | t => t
    match rest2 with
    | 'c' :: _ => some (if neg then -(digitsNat run : ℚ) else (digitsNat run : ℕ))
    | _ => none
  else none

def searchTemp : List Char → Option ℚ
  | [] => none
  | c :: t =>
    match matchTempAt (c :: t) with
    | some v => some v
    | none => searchTemp t

/-! ### The Text Vectorizer: `texto_para_vetor` -/

/-- `df_population[name].median() if df_population is not None else d`.
A missing column raises `KeyError` and a median over string data raises
`TypeError`; both are modelled as `Except.error`.  A median over an all-NaN
column is NaN, hence the `Option ℚ` payload (`none` = NaN). -/
def medianOr (pop : Option DF) (name : String) (d : ℚ) : Except Unit (Option ℚ) :=
  match pop with
  | none => .ok (some d)
  | some df =>
    match df.find name with
    | none => .error ()
    | some c =>
      if c.cells.any Cell.isStr then .error ()
      else .ok (median (c.cells.filterMap Cell.numVal))

/-- The `custo_index` keyword cascade. -/
def custoOf (tc : List Char) : ℚ :=
  if hasSub tc "barato".data || hasSub tc "baixo custo".data then 1
  else if hasSub tc "médio".data || hasSub tc "medio".data
      || hasSub tc "custo médio".data then 3
  else if hasSub tc "caro".data || hasSub tc "alto custo".data then 6
  else 3

/-- The density cascade: keywords, then the `kg/m3` and `g/cm3` patterns,
then the population median (or 2000). -/
def densOf (tc : List Char) (pop : Option DF) : Except Unit (Option ℚ) :=
  if hasSub tc "leve".data || hasSub tc "levíssimo".data then .ok (some 900)
  else if hasSub tc "pesado".data || hasSub tc "pesad".data then .ok (some 7800)
  else if hasSub tc "médio".data then .ok (some 2500)
  else
    match searchKg tc with
    | some v => .ok (some v)
    | none =>
      match searchGcm tc with
      | some v => .ok (some (v * 1000))
      | none => medianOr pop "densidade_kg_m3" 2000

/-- The tensile-strength cascade. -/
def tensOf (tc : List Char) (pop : Option DF) : Except Unit (Option ℚ) :=
  if hasSub tc "muito resistente".data || hasSub tc "alta resistência".data then .ok (some 400)
  else if hasSub tc "resistente".data || hasSub tc "resistência alta".data then .ok (some 200)
  else if hasSub tc "pouco resistente".data || hasSub tc "frágil".data then .ok (some 10)
  else
    match searchMpa tc with
    | some v => .ok (some v)
    | none => medianOr pop "tensile_strength_MPa" 50

/-- The thermal-conductivity cascade. -/
def condOf (tc : List Char) (pop : Option DF) : Except Unit (Option ℚ) :=
  if hasSub tc "isolante".data || hasSub tc "baixo condutor".data then .ok (some (1/5))
  else if hasSub tc "condutor".data || hasSub tc "alta condutividade".data
      || hasSub tc "elétrico".data then .ok (some 100)
  else
    match searchCond tc with
    | some v => .ok (some v)
    | none => medianOr pop "thermal_conductivity_W_mK" 1

def reciclOf (tc : List Char) : ℚ :=
  if hasSub tc "recicl".data || hasSub tc "reutiliz".data then 1 else 0

def bioOf (tc : List Char) : ℚ :=
  if hasSub tc "biodegrad".data || hasSub tc "compost".data then 1 else 0

/-- The melting-point cascade: the `°C` pattern first, then keywords, then
the population median (or 300). -/
def tempOf (tc : List Char) (pop : Option DF) : Except Unit (Option ℚ) :=
  match searchTemp tc with
  | some v => .ok (some v)
  | none =>
    if hasSub tc "resiste ao calor".data || hasSub tc "alta temperatura".data then .ok (some 1000)
    else if hasSub tc "nao derrete".data || hasSub tc "não derrete".data then .ok (some 1500)
    else medianOr pop "melting_point_C" 300

/-- `texto_para_vetor(texto, df_population)`: the 7-entry feature vector in
`_FEATURES` order.  An entry is `none` when the Python value would be NaN
(an all-NaN population median). -/
def texto_para_vetor (texto : String) (pop : Option DF) :
    Except Unit (List (Option ℚ)) :=
  let tc := (pyLower texto).data
  match densOf tc pop, tensOf tc pop, condOf tc pop, tempOf tc pop with
  | .ok dens, .ok tens, .ok cond, .ok temp =>
    .ok [some (custoOf tc), dens, tens, cond, some (reciclOf tc), some (bioOf tc), temp]
  | .error e, _, _, _ => .error e
  | _, .error e, _, _ => .error e
  | _, _, .error e, _ => .error e
  | _, _, _, .error e => .error e

/-! ### The Matcher: `preparar_modelo` / `recomendar_material`

`sklearn.NearestNeighbors` is external library code (not in this
repository); following spec §4.3 it is modelled as exact brute-force
Euclidean nearest-neighbor search with ties broken by original row order,
and with `InvalidInput` (`Except.error`) exactly on an empty fit table, a
query vector whose length is not 7 or that contains a non-finite entry
(`none`), or `k` exceeding the number of fitted rows.  Distances are
compared through their squares, which are rational and order-equivalent. -/

/-- The fitted data `df[_FEATURES].values` as a list of 7-entry rows;
`none` if a needed cell is not numeric (unreachable for Normalizer output). -/
def featureMatrix (df : DF) : Option (List (List ℚ)) :=
  (List.range df.nrows).mapM (fun i =>
    features.mapM (fun f => (df.find f).bind (fun c => (c.cells.get? i).bind Cell.numVal)))

/-- Modelled from the spec: `preparar_modelo` fits the index over the
feature matrix; fitting an empty or non-numeric table is `InvalidInput`. -/
def preparar_modelo (df : DF) : Except Unit (List (List ℚ)) :=
  match featureMatrix df with
  | none => .error ()
  | some m => if m.isEmpty then .error () else .ok m

/-- Squared Euclidean distance between two feature vectors. -/
def sqDist (u v : List ℚ) : ℚ :=
  (u.zip v).foldr (fun p a => (p.1 - p.2) ^ 2 + a) 0

/-- Strict-weak ordering used for ranking: by squared distance, ties by
original row position (the stable tie-break of spec §4.3). -/
def lexLE (a b : ℕ × ℚ) : Prop :=
  a.2 < b.2 ∨ (a.2 = b.2 ∧ a.1 ≤ b.1)

instance : DecidableRel lexLE := by
  intro a b
  unfold lexLE
  infer_instance

def insertLex (x : ℕ × ℚ) : List (ℕ × ℚ) → List (ℕ × ℚ)
  | [] => [x]
  | y :: ys => if lexLE x y then x :: y :: ys else y :: insertLex x ys

def sortLex : List (ℕ × ℚ) → List (ℕ × ℚ)
  | [] => []
  | x :: xs => insertLex x (sortLex xs)

/-- Row indices paired with their data. -/
def withIdx (m : List (List ℚ)) : List (ℕ × List ℚ) :=
  (List.range m.length).zip m

/-- Modelled from the spec: `kneighbors` — all rows ranked by distance to
the query (stable in the original row order), truncated to `k`.  Each entry
is `(original row position, squared distance)`. -/
def kneighbors (m : List (List ℚ)) (q : List ℚ) (k : ℕ) : List (ℕ × ℚ) :=
  (sortLex ((withIdx m).map (fun p => (p.1, sqDist q p.2)))).take k

/-- `recomendar_material(modelo, df_original, vetor_entrada, k)`: validates
the query, then returns the `k` nearest `(row position, squared distance)`
pairs; the Python code materialises `df_original.iloc` at those positions
and appends the (unsquared) distance column.  `InvalidInput` per spec §4.3:
wrong vector length, non-finite entry, or `k` over the catalog size. -/
def recomendar_material (modelo : List (List ℚ)) (df_original : DF)
    (vetor_entrada : List (Option ℚ)) (k : ℕ) : Except Unit (List (ℕ × ℚ)) :=
  if vetor_entrada.length ≠ 7 ∨ (∃ x ∈ vetor_entrada, x = none) ∨ modelo.length < k then
    .error ()
  else
    .ok (kneighbors modelo (vetor_entrada.filterMap id) k)

/-! ## Canonical form (for the idempotence analysis) -/

/-- The cell is a (finite) number. -/
def Cell.isNum : Cell → Prop
  | .num _ => True
  | _ => False

instance : DecidablePred Cell.isNum := by
  intro x
  unfold Cell.isNum
  cases x <;> infer_instance

/-- The column behind `o` exists, carries a numeric dtype, respects it, and
is complete (every cell a number). -/
def CanonicalCol (o : Option Col) : Prop :=
  match o with
  | some c => (c.dtype = .i64 ∨ c.dtype = .f64) ∧ c.WFd ∧ ∀ x ∈ c.cells, x.isNum
  | none => False

instance (o : Option Col) : Decidable (CanonicalCol o) := by
  unfold CanonicalCol
  cases o <;> infer_instance

/-- Canonical form: all seven canonical columns present, numeric, complete. -/
def Canonical (df : DF) : Prop :=
  ∀ f ∈ features, CanonicalCol (df.find f)

instance (df : DF) : Decidable (Canonical df) := by
  unfold Canonical
  infer_instance

/-- The column (when present) takes only the values 0 and 1. -/
def Bool01Col (o : Option Col) : Prop :=
  match o with
  | some c => ∀ x ∈ c.cells, x = .num 0 ∨ x = .num 1
  | none => True

instance (o : Option Col) : Decidable (Bool01Col o) := by
  unfold Bool01Col
  cases o <;> infer_instance

/-- The two boolean columns take only the values 0 and 1. -/
def Bool01 (df : DF) : Prop :=
  Bool01Col (df.find "reciclavel") ∧ Bool01Col (df.find "biodegradavel")

instance (df : DF) : Decidable (Bool01 df) := by
  unfold Bool01
  infer_instance

/-- What one Normalizer pass makes of a canonical `{0,1}` boolean column
with default `d`: a nonempty `int64` column maps through the `"0"`/`"1"`
vocabulary onto itself, anything else (float dtype, whose cells stringify
as `"0.0"`/`"1.0"` and match no key, or an empty column) collapses to a
`float64` column of the default. -/
def boolOut (d : ℚ) (c : Col) : Col :=
  if c.dtype = .i64 ∧ c.cells ≠ [] then c
  else ⟨.f64, c.cells.map (fun _ => .num d)⟩

/-- `mapear_valores` on a canonical table, columnwise. -/
def outColF (f : String) (c : Col) : Col :=
  if f = "reciclavel" then boolOut 1 c
  else if f = "biodegradavel" then boolOut 0 c
  else c

/-- The five non-boolean canonical columns. -/
def nonBoolFeatures : List String :=
  ["custo_index", "densidade_kg_m3", "tensile_strength_MPa",
   "thermal_conductivity_W_mK", "melting_point_C"]

/-- `mapear_valores` on a canonical table: the boolean columns settle to
their `boolOut` shapes and the final column selection is applied. -/
def canonOut (df : DF) : DF :=
  stepKeep ((df.transformCol "reciclavel" (boolOut 1)).transformCol
    "biodegradavel" (boolOut 0))

/-! ## Concrete tables and texts used as failing inputs and witnesses -/

/-- A raw table whose object-dtyped `custo` column holds a missing entry
alongside a valid label (as a CSV with an empty cell yields). -/
def dfBad : DF := ⟨2, [("custo", ⟨.obj, [.str "baixo", .na]⟩)]⟩

/-- A minimal one-row raw table carrying only `custo_index`. -/
def wdf3 : DF := ⟨1, [("custo_index", ⟨.i64, [.num 2]⟩)]⟩

/-- `mapear_valores wdf3`: the present column survives, the other six are
synthesized and take their per-feature defaults. -/
def wout3 : DF :=
  ⟨1, [("custo_index", ⟨.i64, [.num 2]⟩),
       ("densidade_kg_m3", ⟨.f64, [.num 2000]⟩),
       ("tensile_strength_MPa", ⟨.f64, [.num 50]⟩),
       ("thermal_conductivity_W_mK", ⟨.f64, [.num 1]⟩),
       ("reciclavel", ⟨.f64, [.num 1]⟩),
       ("biodegradavel", ⟨.f64, [.num 0]⟩),
       ("melting_point_C", ⟨.f64, [.num 300]⟩)]⟩

/-- A two-row raw table with identity columns and a categorical `custo`. -/
def wdf7 : DF :=
  ⟨2, [("id", ⟨.i64, [.num 1, .num 2]⟩),
       ("nome_material", ⟨.obj, [.str "aço", .str "pvc"]⟩),
       ("custo", ⟨.obj, [.str "baixo", .str "alto"]⟩)]⟩

/-- `mapear_valores wdf7`. -/
def wout7 : DF :=
  ⟨2, [("id", ⟨.i64, [.num 1, .num 2]⟩),
       ("nome_material", ⟨.obj, [.str "aço", .str "pvc"]⟩),
       ("custo_index", ⟨.i64, [.num 0, .num 4]⟩),
       ("densidade_kg_m3", ⟨.f64, [.num 2000, .num 2000]⟩),
       ("tensile_strength_MPa", ⟨.f64, [.num 50, .num 50]⟩),
       ("thermal_conductivity_W_mK", ⟨.f64, [.num 1, .num 1]⟩),
       ("reciclavel", ⟨.f64, [.num 1, .num 1]⟩),
       ("biodegradavel", ⟨.f64, [.num 0, .num 0]⟩),
       ("melting_point_C", ⟨.f64, [.num 300, .num 300]⟩)]⟩

/-- A constant numeric column. -/
def constCol (d : Dtype) (q : ℚ) (n : ℕ) : Col := ⟨d, List.replicate n (.num q)⟩

/-- The feature matrix the matcher fits over `wout7`. -/
def M4 : List (List ℚ) :=
  [[0, 2000, 50, 1, 1, 0, 300], [4, 2000, 50, 1, 1, 0, 300]]

/-- An all-zero 7-entry query vector. -/
def q7 : List ℚ := [0, 0, 0, 0, 0, 0, 0]

/-- A canonical-form table (all seven features present, numeric, complete)
whose integer `reciclavel` column holds a value outside `{0, 1}`. -/
def t6 : DF :=
  ⟨3, [("custo_index", constCol .i64 1 3),
       ("densidade_kg_m3", constCol .i64 1000 3),
       ("tensile_strength_MPa", constCol .i64 10 3),
       ("thermal_conductivity_W_mK", constCol .i64 1 3),
       ("reciclavel", ⟨.i64, [.num 0, .num 1, .num 2]⟩),
       ("biodegradavel", constCol .i64 0 3),
       ("melting_point_C", constCol .i64 100 3)]⟩

/-- A canonical-form table whose boolean columns hold only `{0, 1}`. -/
def t6w : DF :=
  ⟨2, [("custo_index", constCol .i64 1 2),
       ("densidade_kg_m3", constCol .f64 1200 2),
       ("tensile_strength_MPa", constCol .i64 10 2),
       ("thermal_conductivity_W_mK", constCol .f64 1 2),
       ("reciclavel", ⟨.i64, [.num 0, .num 1]⟩),
       ("biodegradavel", ⟨.f64, [.num 0, .num 1]⟩),
       ("melting_point_C", constCol .i64 100 2)]⟩

/-- The free-text description of spec example 2. -/
def txtC1 : String := "leve, barato, resistência alta, não biodegradável"

/-- A one-row normalized reference table: thermal-conductivity median `7/2`,
melting-point median `450`. -/
def refDF : DF :=
  ⟨1, [("custo_index", constCol .i64 1 1),
       ("densidade_kg_m3", constCol .i64 1000 1),
       ("tensile_strength_MPa", constCol .i64 10 1),
       ("thermal_conductivity_W_mK", ⟨.f64, [.num (7/2)]⟩),
       ("reciclavel", constCol .i64 1 1),
       ("biodegradavel", constCol .i64 0 1),
       ("melting_point_C", constCol .i64 450 1)]⟩

/-- A 50-row fitted matrix (the spec's `k=100` against 50 rows scenario). -/
def modelo50 : List (List ℚ) := List.replicate 50 [0, 0, 0, 0, 0, 0, 0]

/-- A raw table whose numeric `custo_index` carries out-of-range values. -/
def wdf9 : DF := ⟨2, [("custo_index", ⟨.f64, [.num (-5), .num 999]⟩)]⟩

/-- `mapear_valores wdf9`: the out-of-range values pass through verbatim. -/
def wout9 : DF :=
  ⟨2, [("custo_index", ⟨.f64, [.num (-5), .num 999]⟩),
       ("densidade_kg_m3", ⟨.f64, [.num 2000, .num 2000]⟩),
       ("tensile_strength_MPa", ⟨.f64, [.num 50, .num 50]⟩),
       ("thermal_conductivity_W_mK", ⟨.f64, [.num 1, .num 1]⟩),
       ("reciclavel", ⟨.f64, [.num 1, .num 1]⟩),
       ("biodegradavel", ⟨.f64, [.num 0, .num 0]⟩),
       ("melting_point_C", ⟨.f64, [.num 300, .num 300]⟩)]⟩

/-- A raw table deriving `cost_index` from an unaccented-`medio` `custo`. -/
def w10a : DF := ⟨2, [("custo", ⟨.obj, [.str "medio", .str "medio"]⟩)]⟩

/-- A raw table deriving density from an unaccented-`medio` `peso`. -/
def w10b : DF := ⟨1, [("peso", ⟨.obj, [.str "medio"]⟩)]⟩

/-- `mapear_valores w10a`: every unrecognized `"medio"` becomes the default 3. -/
def wout10a : DF :=
  ⟨2, [("custo_index", ⟨.f64, [.num 3, .num 3]⟩),
       ("densidade_kg_m3", ⟨.f64, [.num 2000, .num 2000]⟩),
       ("tensile_strength_MPa", ⟨.f64, [.num 50, .num 50]⟩),
       ("thermal_conductivity_W_mK", ⟨.f64, [.num 1, .num 1]⟩),
       ("reciclavel", ⟨.f64, [.num 1, .num 1]⟩),
       ("biodegradavel", ⟨.f64, [.num 0, .num 0]⟩),
       ("melting_point_C", ⟨.f64, [.num 300, .num 300]⟩)]⟩

/-- `mapear_valores w10b`: the `peso` map recognises `"medio"` and yields 5000. -/
def wout10b : DF :=
  ⟨1, [("custo_index", ⟨.f64, [.num 3]⟩),
       ("densidade_kg_m3", ⟨.i64, [.num 5000]⟩),
       ("tensile_strength_MPa", ⟨.f64, [.num 50]⟩),
       ("thermal_conductivity_W_mK", ⟨.f64, [.num 1]⟩),
       ("reciclavel", ⟨.f64, [.num 1]⟩),
       ("biodegradavel", ⟨.f64, [.num 0]⟩),
       ("melting_point_C", ⟨.f64, [.num 300]⟩)]⟩

/-! ## Lemmas: DataFrame primitives -/

/-- Columns all have `nrows` cells. -/
def LenWF (df : DF) : Prop :=
  ∀ p ∈ df.cols, (Prod.snd p).cells.length = df.nrows

theorem DF.WF.lenWF {df : DF} (h : df.WF) : LenWF df := h.1

theorem nrows_setCol (df : DF) (n : String) (c : Col) :
    (df.setCol n c).nrows = df.nrows := by
  unfold DF.setCol
  split <;> rfl

theorem find?_map_set (l : List (String × Col)) (n : String) (c : Col)
    (h : l.any (fun p => p.1 == n) = true) :
    (l.map (fun p => if p.1 == n then (n, c) else p)).find? (fun p => p.1 == n)
      = some (n, c) := by
  induction l with
  | nil => simp at h
  | cons p ps ih =>
    simp only [List.map_cons]
    by_cases hp : p.1 = n
    · rw [if_pos (by simpa using hp)]
      exact List.find?_cons_of_pos _ (by simp)
    · rw [if_neg (by simpa using hp)]
      rw [List.find?_cons_of_neg _ (by simpa using hp)]
      refine ih ?_
      simp only [List.any_cons, Bool.or_eq_true, beq_iff_eq] at h
      rcases h with h | h
      · exact absurd h hp
      · exact h

theorem find_setCol_self (df : DF) (n : String) (c : Col) :
    (df.setCol n c).find n = some c := by
  unfold DF.setCol DF.hasCol DF.find
  split
  · rename_i h
    simp only
    rw [find?_map_set df.cols n c h]
    rfl
  · rename_i h
    simp only
    rw [List.find?_append]
    have h0 : df.cols.find? (fun p => p.1 == n) = none := by
      rw [List.find?_eq_none]
      intro p hp
      simp only [Bool.not_eq_true, beq_eq_false_iff_ne]
      intro e
      exact h (List.any_eq_true.mpr ⟨p, hp, by simp [e]⟩)
    rw [h0]
    rw [List.find?_cons_of_pos (p := fun q : String × Col => q.1 == n) _ (by simp)]
    rfl

theorem find?_map_set_ne (l : List (String × Col)) (n m : String) (c : Col)
    (h : m ≠ n) :
    (l.map (fun p => if p.1 == n then (n, c) else p)).find? (fun p => p.1 == m)
      = l.find? (fun p => p.1 == m) := by
  induction l with
  | nil => simp
  | cons p ps ih =>
    simp only [List.map_cons]
    by_cases hp : p.1 = n
    · rw [if_pos (by simpa using hp)]
      rw [List.find?_cons_of_neg (p := fun q : String × Col => q.1 == m) _
        (by simpa using fun e => h e.symm)]
      rw [List.find?_cons_of_neg (p := fun q : String × Col => q.1 == m) _
        (by simp only [beq_iff_eq, hp]; exact fun e => h e.symm)]
      exact ih
    · rw [if_neg (by simpa using hp)]
      by_cases hm : p.1 = m
      · rw [List.find?_cons_of_pos (p := fun q : String × Col => q.1 == m) _ (by simpa using hm),
          List.find?_cons_of_pos (p := fun q : String × Col => q.1 == m) _ (by simpa using hm)]
      · rw [List.find?_cons_of_neg (p := fun q : String × Col => q.1 == m) _ (by simpa using hm),
          List.find?_cons_of_neg (p := fun q : String × Col => q.1 == m) _ (by simpa using hm)]
        exact ih

theorem find_setCol_ne (df : DF) (n m : String) (c : Col) (h : m ≠ n) :
    (df.setCol n c).find m = df.find m := by
  unfold DF.setCol DF.find
  split
  · simp only
    rw [find?_map_set_ne df.cols n m c h]
  · simp only
    rw [List.find?_append]
    cases hf : df.cols.find? (fun p => p.1 == m) with
    | some p => simp [hf]
    | none =>
      rw [List.find?_cons_of_neg (p := fun q : String × Col => q.1 == m) _
        (by simpa using fun e => h e.symm)]
      simp

theorem hasCol_setCol_ne (df : DF) (n m : String) (c : Col) (h : m ≠ n) :
    (df.setCol n c).hasCol m = df.hasCol m := by
  unfold DF.setCol DF.hasCol
  split
  · simp only [List.any_map, List.any_eq_true]
    apply Bool.coe_iff_coe.mp
    simp only [List.any_eq_true, Function.comp]
    constructor
    · rintro ⟨p, hp, he⟩
      refine ⟨p, hp, ?_⟩
      by_cases hpn : p.1 = n
      · rw [if_pos (by simpa using hpn)] at he
        have hnm : n = m := by simpa using he
        exact absurd hnm.symm h
      · rw [if_neg (by simpa using hpn)] at he
        exact he
    · rintro ⟨p, hp, he⟩
      refine ⟨p, hp, ?_⟩
      by_cases hpn : p.1 = n
      · exact absurd (((by simpa using he : p.1 = m)).symm.trans hpn) (fun e => h e)
      · rw [if_neg (by simpa using hpn)]
        exact he
  · simp only [List.any_append, List.any_cons, List.any_nil]
    simp [show (n == m) = false from by simpa using fun e => h e.symm]

theorem hasCol_iff_find (df : DF) (n : String) :
    df.hasCol n = true ↔ ∃ c, df.find n = some c := by
  unfold DF.hasCol DF.find
  constructor
  · intro h
    have h2 : (df.cols.find? (fun p => p.1 == n)).isSome = true := by
      rw [List.find?_isSome]
      obtain ⟨p, hp, he⟩ := List.any_eq_true.mp h
      exact ⟨p, hp, he⟩
    obtain ⟨p, hp⟩ := Option.isSome_iff_exists.mp h2
    exact ⟨p.2, by simp [hp]⟩
  · rintro ⟨c, hc⟩
    obtain ⟨p, hp⟩ := Option.map_eq_some'.mp hc
    have := List.mem_of_find?_eq_some hp.1
    have hpred := List.find?_some hp.1
    exact List.any_eq_true.mpr ⟨p, this, hpred⟩

theorem hasCol_false_find (df : DF) (n : String) (h : df.hasCol n = false) :
    df.find n = none := by
  cases hf : df.find n with
  | none => rfl
  | some c =>
    rw [(hasCol_iff_find df n).mpr ⟨c, hf⟩] at h
    exact absurd h (by simp)

theorem mem_setCol {df : DF} {n : String} {c : Col} {p : String × Col}
    (hp : p ∈ (df.setCol n c).cols) : p.2 = c ∨ p ∈ df.cols := by
  unfold DF.setCol at hp
  split at hp
  · simp only [List.mem_map] at hp
    obtain ⟨q, hq, he⟩ := hp
    by_cases hqn : q.1 = n
    · left
      rw [← he, if_pos (by simpa using hqn)]
    · right
      rw [← he, if_neg (by simpa using hqn)]
      exact hq
  · rcases List.mem_append.mp hp with h | h
    · exact Or.inr h
    · left
      have : p = (n, c) := by simpa using h
      rw [this]

theorem LenWF_setCol {df : DF} {n : String} {c : Col} (h : LenWF df)
    (hc : c.cells.length = df.nrows) : LenWF (df.setCol n c) := by
  intro p hp
  rw [nrows_setCol]
  rcases mem_setCol hp with h2 | h2
  · rw [h2]; exact hc
  · exact h p h2

theorem nrows_transformCol (df : DF) (n : String) (g : Col → Col) :
    (df.transformCol n g).nrows = df.nrows := by
  unfold DF.transformCol
  cases df.find n with
  | some c => exact nrows_setCol df n (g c)
  | none => rfl

theorem find_transformCol (df : DF) (n m : String) (g : Col → Col) :
    (df.transformCol n g).find m = if m = n then (df.find m).map g else df.find m := by
  unfold DF.transformCol
  by_cases h : m = n
  · subst h
    cases hf : df.find m with
    | some c => simp [hf, find_setCol_self]
    | none => simp [hf]
  · rw [if_neg h]
    cases hf : df.find n with
    | some c => exact find_setCol_ne df n m (g c) h
    | none => rfl

theorem hasCol_transformCol (df : DF) (n m : String) (g : Col → Col) :
    (df.transformCol n g).hasCol m = df.hasCol m := by
  cases hb : df.hasCol m with
  | true =>
    obtain ⟨c, hc⟩ := (hasCol_iff_find df m).mp hb
    apply (hasCol_iff_find _ m).mpr
    rw [find_transformCol]
    by_cases h : m = n
    · rw [if_pos h, hc]
      exact ⟨g c, rfl⟩
    · rw [if_neg h, hc]
      exact ⟨c, rfl⟩
  | false =>
    cases hb2 : (df.transformCol n g).hasCol m with
    | false => rfl
    | true =>
      obtain ⟨c, hc⟩ := (hasCol_iff_find _ m).mp hb2
      rw [find_transformCol] at hc
      have hn := hasCol_false_find df m hb
      by_cases h : m = n
      · rw [if_pos h, hn] at hc
        exact absurd hc (by simp)
      · rw [if_neg h, hn] at hc
        exact absurd hc (by simp)

theorem LenWF_transformCol {df : DF} {n : String} {g : Col → Col} (h : LenWF df)
    (hg : ∀ c, ((g c).cells.length = c.cells.length)) :
    LenWF (df.transformCol n g) := by
  unfold DF.transformCol
  cases hf : df.find n with
  | none => exact h
  | some c =>
    refine LenWF_setCol h ?_
    rw [hg c]
    obtain ⟨p, hp⟩ := Option.map_eq_some'.mp hf
    have hm := List.mem_of_find?_eq_some hp.1
    rw [← hp.2]
    exact h p hm

/-! ### `applyAll` (the `to_numeric` and imputation loops) -/

theorem nrows_applyAll (G : String → Col → Col) (l : List String) (df : DF) :
    (applyAll G l df).nrows = df.nrows := by
  induction l generalizing df with
  | nil => rfl
  | cons a t ih =>
    show (applyAll G t (df.transformCol a (G a))).nrows = df.nrows
    rw [ih, nrows_transformCol]

theorem find_applyAll (G : String → Col → Col) (l : List String) (df : DF)
    (m : String) (hnd : l.Nodup) :
    (applyAll G l df).find m = if m ∈ l then (df.find m).map (G m) else df.find m := by
  induction l generalizing df with
  | nil => simp [applyAll]
  | cons a t ih =>
    have hnd' : t.Nodup := hnd.of_cons
    show (applyAll G t (df.transformCol a (G a))).find m = _
    rw [ih _ hnd']
    by_cases hm : m = a
    · subst hm
      have hmt : m ∉ t := by
        intro hmem
        exact (List.nodup_cons.mp hnd).1 hmem
      rw [if_neg hmt, find_transformCol, if_pos rfl]
      simp
    · rw [find_transformCol, if_neg hm]
      by_cases hmem : m ∈ t
      · rw [if_pos hmem, if_pos (by simp [hmem])]
      · rw [if_neg hmem, if_neg (by simp [hm, hmem])]

theorem hasCol_applyAll (G : String → Col → Col) (l : List String) (df : DF)
    (m : String) : (applyAll G l df).hasCol m = df.hasCol m := by
  induction l generalizing df with
  | nil => rfl
  | cons a t ih =>
    show (applyAll G t (df.transformCol a (G a))).hasCol m = _
    rw [ih, hasCol_transformCol]

theorem LenWF_applyAll {G : String → Col → Col} {l : List String} {df : DF}
    (h : LenWF df) (hg : ∀ f c, ((G f c).cells.length = c.cells.length)) :
    LenWF (applyAll G l df) := by
  induction l generalizing df with
  | nil => exact h
  | cons a t ih =>
    exact ih (LenWF_transformCol h (hg a))

/-! ### `assemble` / `stepKeep` -/

theorem find?_assemble (df : DF) (ns : List String) (m : String) :
    (assemble df ns).find? (fun p => p.1 == m)
      = if m ∈ ns then (df.find m).map (fun c => (m, c)) else none := by
  induction ns with
  | nil => simp [assemble]
  | cons n t ih =>
    unfold assemble
    by_cases hnm : n = m
    · subst hnm
      cases hf : df.find n with
      | some c =>
        simp only [List.filterMap_cons, hf, Option.map_some']
        rw [List.find?_cons_of_pos (p := fun q : String × Col => q.1 == n) _ (by simp)]
        simp
      | none =>
        simp only [List.filterMap_cons, hf, Option.map_none']
        rw [show (List.filterMap (fun n => Option.map (fun c => (n, c)) (df.find n)) t)
            = assemble df t from rfl, ih, hf]
        by_cases hm : n ∈ t <;> simp [hm]
    · have hmn : m ≠ n := fun e => hnm e.symm
      cases hf : df.find n with
      | some c =>
        simp only [List.filterMap_cons, hf, Option.map_some']
        rw [List.find?_cons_of_neg (p := fun q : String × Col => q.1 == m) _
          (by simpa using hnm)]
        rw [show (List.filterMap (fun n => Option.map (fun c => (n, c)) (df.find n)) t)
            = assemble df t from rfl, ih]
        by_cases hm : m ∈ t
        · rw [if_pos hm, if_pos (by simp [hm])]
        · rw [if_neg hm, if_neg (by simp [hm, hmn])]
      | none =>
        simp only [List.filterMap_cons, hf, Option.map_none']
        rw [show (List.filterMap (fun n => Option.map (fun c => (n, c)) (df.find n)) t)
            = assemble df t from rfl, ih]
        by_cases hm : m ∈ t
        · rw [if_pos hm, if_pos (by simp [hm])]
        · rw [if_neg hm, if_neg (by simp [hm, hmn])]

theorem find_stepKeep (df : DF) (m : String) :
    (stepKeep df).find m
      = if m ∈ (["id", "nome_material"].filter (fun n => df.hasCol n)) ++ features
        then df.find m else none := by
  have h0 : (stepKeep df).find m
      = ((assemble df ((["id", "nome_material"].filter (fun n => df.hasCol n)) ++ features)).find?
          (fun p => p.1 == m)).map Prod.snd := rfl
  rw [h0, find?_assemble]
  split
  · cases df.find m <;> rfl
  · rfl

theorem mem_assemble {df : DF} {ns : List String} {p : String × Col}
    (hp : p ∈ assemble df ns) : df.find p.1 = some p.2 := by
  induction ns with
  | nil => simp [assemble] at hp
  | cons n t ih =>
    unfold assemble at hp
    simp only [List.filterMap_cons] at hp
    cases hf : df.find n with
    | some c =>
      rw [hf] at hp
      simp only [Option.map_some'] at hp
      rcases List.mem_cons.mp hp with h | h
      · rw [h]
        exact hf
      · exact ih h
    | none =>
      rw [hf] at hp
      simp only [Option.map_none'] at hp
      exact ih hp

theorem LenWF_stepKeep {df : DF} (h : LenWF df) : LenWF (stepKeep df) := by
  intro p hp
  have hp2 : p ∈ assemble df ((["id", "nome_material"].filter (fun n => df.hasCol n)) ++ features) := hp
  have hf := mem_assemble hp2
  obtain ⟨q, hq⟩ := Option.map_eq_some'.mp hf
  have hm := List.mem_of_find?_eq_some hq.1
  show p.2.cells.length = (stepKeep df).nrows
  rw [show (stepKeep df).nrows = df.nrows from rfl, ← hq.2]
  exact h q hm

/-! ### Step-level lemmas -/

theorem mapCustoCells_length {m : List (String × ℚ)} {l : List Cell} {r : List Cell}
    (h : mapCustoCells m l = .ok r) : r.length = l.length := by
  induction l generalizing r with
  | nil =>
    simp only [mapCustoCells] at h
    cases h
    rfl
  | cons x xs ih =>
    simp only [mapCustoCells] at h
    cases hy : mapLowerCell m (strStripCell x) with
    | error e =>
      rw [hy] at h
      exact absurd h (by simp)
    | ok y =>
      rw [hy] at h
      cases hys : mapCustoCells m xs with
      | error e =>
        rw [hys] at h
        exact absurd h (by simp)
      | ok ys =>
        rw [hys] at h
        simp only [Except.ok.injEq] at h
        rw [← h]
        simp [ih hys]

theorem wordMapCol_length (b : Bool) (m : List (String × ℚ)) (c : Col) :
    (wordMapCol b m c).cells.length = c.cells.length := by
  simp [wordMapCol, mkMappedCol]

theorem toNumericCol_length (c : Col) :
    (toNumericCol c).cells.length = c.cells.length := by
  unfold toNumericCol
  cases c.dtype <;> simp

theorem imputeCol_length (d : ℚ) (c : Col) :
    (imputeCol d c).cells.length = c.cells.length := by
  unfold imputeCol
  split
  · split <;> simp
  · rfl

/-- Shape of a successful `custo` step: either a no-op or a single
`custo_index` assignment of a column as long as the `custo` column. -/
theorem stepCusto_shape {df d1 : DF} (h : stepCusto df = .ok d1) :
    d1 = df ∨ ∃ c : Col,
      (∃ c0 : Col, df.find "custo" = some c0 ∧ c.cells.length = c0.cells.length)
      ∧ d1 = df.setCol "custo_index" c := by
  unfold stepCusto at h
  split at h
  · cases hf : df.find "custo" with
    | none =>
      rw [show map_col_if_exists df "custo" MAP_CUSTO = .ok none from by
        unfold map_col_if_exists; rw [hf]] at h
      simp only [Except.ok.injEq] at h
      exact Or.inl h.symm
    | some c0 =>
      by_cases hd : c0.dtype = .obj
      · cases hc : mapCustoCells MAP_CUSTO c0.cells with
        | error e =>
          rw [show map_col_if_exists df "custo" MAP_CUSTO = .error e from by
            unfold map_col_if_exists; rw [hf]; simp [hd, hc]] at h
          exact absurd h (by simp)
        | ok cells =>
          rw [show map_col_if_exists df "custo" MAP_CUSTO
              = .ok (some (mkMappedCol true cells)) from by
            unfold map_col_if_exists; rw [hf]; simp [hd, hc]] at h
          simp only [Except.ok.injEq] at h
          refine Or.inr ⟨mkMappedCol true cells, ⟨c0, rfl, ?_⟩, h.symm⟩
          simpa [mkMappedCol] using mapCustoCells_length hc
      · rw [show map_col_if_exists df "custo" MAP_CUSTO = .ok (some c0) from by
          unfold map_col_if_exists; rw [hf]; simp [hd]] at h
        simp only [Except.ok.injEq] at h
        exact Or.inr ⟨c0, ⟨c0, rfl, rfl⟩, h.symm⟩
  · simp only [Except.ok.injEq] at h
    exact Or.inl h.symm

theorem stepCusto_nrows {df d1 : DF} (h : stepCusto df = .ok d1) :
    d1.nrows = df.nrows := by
  rcases stepCusto_shape h with h1 | ⟨c, _, h1⟩
  · rw [h1]
  · rw [h1, nrows_setCol]

theorem stepCusto_find_ne {df d1 : DF} {m : String} (h : stepCusto df = .ok d1)
    (hm : m ≠ "custo_index") : d1.find m = df.find m := by
  rcases stepCusto_shape h with h1 | ⟨c, _, h1⟩
  · rw [h1]
  · rw [h1, find_setCol_ne _ _ _ _ hm]

theorem stepCusto_hasCol_ne {df d1 : DF} {m : String} (h : stepCusto df = .ok d1)
    (hm : m ≠ "custo_index") : d1.hasCol m = df.hasCol m := by
  rcases stepCusto_shape h with h1 | ⟨c, _, h1⟩
  · rw [h1]
  · rw [h1, hasCol_setCol_ne _ _ _ _ hm]

theorem stepCusto_LenWF {df d1 : DF} (h : stepCusto df = .ok d1) (hw : LenWF df) :
    LenWF d1 := by
  rcases stepCusto_shape h with h1 | ⟨c, ⟨c0, hc0, hlen⟩, h1⟩
  · rw [h1]; exact hw
  · rw [h1]
    refine LenWF_setCol hw ?_
    rw [hlen]
    obtain ⟨p, hp⟩ := Option.map_eq_some'.mp hc0
    rw [← hp.2]
    exact hw p (List.mem_of_find?_eq_some hp.1)

/-- A present target column makes the `custo` step a no-op. -/
theorem stepCusto_present {df : DF} (hp : df.hasCol "custo_index" = true) :
    stepCusto df = .ok df := by
  unfold stepCusto
  rw [if_neg (by simp [hp])]

theorem stepAlias_nrows (df : DF) (t s : String) (b : Bool) (m : List (String × ℚ)) :
    (stepAlias df t s b m).nrows = df.nrows := by
  unfold stepAlias
  split
  · cases df.find s with
    | some c => exact nrows_setCol df t _
    | none => rfl
  · rfl

theorem stepAlias_find_ne (df : DF) (t s : String) (b : Bool) (m : List (String × ℚ))
    (n : String) (hn : n ≠ t) : (stepAlias df t s b m).find n = df.find n := by
  unfold stepAlias
  split
  · cases df.find s with
    | some c => exact find_setCol_ne df t n _ hn
    | none => rfl
  · rfl

theorem stepAlias_hasCol_ne (df : DF) (t s : String) (b : Bool) (m : List (String × ℚ))
    (n : String) (hn : n ≠ t) : (stepAlias df t s b m).hasCol n = df.hasCol n := by
  unfold stepAlias
  split
  · cases df.find s with
    | some c => exact hasCol_setCol_ne df t n _ hn
    | none => rfl
  · rfl

theorem stepAlias_LenWF {df : DF} (t s : String) (b : Bool) (m : List (String × ℚ))
    (hw : LenWF df) : LenWF (stepAlias df t s b m) := by
  unfold stepAlias
  split
  · cases hf : df.find s with
    | some c =>
      refine LenWF_setCol hw ?_
      rw [wordMapCol_length]
      obtain ⟨p, hp⟩ := Option.map_eq_some'.mp hf
      rw [← hp.2]
      exact hw p (List.mem_of_find?_eq_some hp.1)
    | none => exact hw
  · exact hw

/-- A present target column makes an alias step a no-op. -/
theorem stepAlias_present {df : DF} {t s : String} {b : Bool} {m : List (String × ℚ)}
    (hp : df.hasCol t = true) : stepAlias df t s b m = df := by
  unfold stepAlias
  rw [if_neg (by simp [hp])]

theorem stepMelting_nrows (df : DF) : (stepMelting df).nrows = df.nrows := by
  unfold stepMelting
  split
  · cases df.find "temperatura_max" with
    | some c => exact nrows_setCol df _ _
    | none => rfl
  · rfl

theorem stepMelting_find_ne (df : DF) (n : String) (hn : n ≠ "melting_point_C") :
    (stepMelting df).find n = df.find n := by
  unfold stepMelting
  split
  · cases df.find "temperatura_max" with
    | some c => exact find_setCol_ne df _ n _ hn
    | none => rfl
  · rfl

theorem stepMelting_hasCol_ne (df : DF) (n : String) (hn : n ≠ "melting_point_C") :
    (stepMelting df).hasCol n = df.hasCol n := by
  unfold stepMelting
  split
  · cases df.find "temperatura_max" with
    | some c => exact hasCol_setCol_ne df _ n _ hn
    | none => rfl
  · rfl

theorem stepMelting_LenWF {df : DF} (hw : LenWF df) : LenWF (stepMelting df) := by
  unfold stepMelting
  split
  · cases hf : df.find "temperatura_max" with
    | some c =>
      refine LenWF_setCol hw ?_
      obtain ⟨p, hp⟩ := Option.map_eq_some'.mp hf
      rw [← hp.2]
      exact hw p (List.mem_of_find?_eq_some hp.1)
    | none => exact hw
  · exact hw

theorem stepMelting_present {df : DF} (hp : df.hasCol "melting_point_C" = true) :
    stepMelting df = df := by
  unfold stepMelting
  rw [if_neg (by simp [hp])]

/-- The characterization of `stepSynth` as a fold, for any name list. -/
theorem find_synthFold (l : List String) (df : DF) (m : String) (hnd : l.Nodup) :
    ((l.foldl (fun d f => if d.hasCol f then d else d.setCol f ⟨.f64, List.replicate d.nrows .na⟩) df).find m)
      = if m ∈ l ∧ df.hasCol m = false
        then some ⟨.f64, List.replicate df.nrows .na⟩ else df.find m := by
  induction l generalizing df with
  | nil => simp
  | cons a t ih =>
    have hnd' : t.Nodup := hnd.of_cons
    show ((t.foldl _ (if df.hasCol a then df else df.setCol a ⟨.f64, List.replicate df.nrows .na⟩)).find m) = _
    by_cases hha : df.hasCol a
    · rw [if_pos hha, ih df hnd']
      by_cases hm : m = a
      · subst hm
        rw [if_neg (by simp [hha]), if_neg (by simp [hha])]
      · by_cases hmt : m ∈ t ∧ df.hasCol m = false
        · rw [if_pos hmt, if_pos ⟨by simp [hmt.1], hmt.2⟩]
        · rw [if_neg hmt, if_neg (by
            intro hc
            exact hmt ⟨by simpa [hm] using hc.1, hc.2⟩)]
    · rw [if_neg hha]
      rw [ih _ hnd']
      by_cases hm : m = a
      · subst hm
        have hmt : m ∉ t := (List.nodup_cons.mp hnd).1
        rw [if_neg (by
          intro hc
          exact hmt hc.1)]
        rw [find_setCol_self, if_pos ⟨by simp, by simpa using hha⟩]
      · rw [hasCol_setCol_ne df a m _ hm, find_setCol_ne df a m _ hm, nrows_setCol]
        by_cases hmt : m ∈ t ∧ df.hasCol m = false
        · rw [if_pos hmt, if_pos ⟨by simp [hmt.1], hmt.2⟩]
        · rw [if_neg hmt, if_neg (by
            intro hc
            exact hmt ⟨by simpa [hm] using hc.1, hc.2⟩)]

theorem find_stepSynth (df : DF) (m : String) :
    (stepSynth df).find m
      = if m ∈ features ∧ df.hasCol m = false
        then some ⟨.f64, List.replicate df.nrows .na⟩ else df.find m :=
  find_synthFold features df m (by unfold features; simp)

theorem nrows_synthFold (l : List String) (df : DF) :
    (l.foldl (fun d f => if d.hasCol f then d else d.setCol f ⟨.f64, List.replicate d.nrows .na⟩) df).nrows
      = df.nrows := by
  induction l generalizing df with
  | nil => rfl
  | cons a t ih =>
    show (t.foldl _ (if df.hasCol a then df else df.setCol a _)).nrows = df.nrows
    by_cases hha : df.hasCol a
    · rw [if_pos hha, ih]
    · rw [if_neg hha, ih, nrows_setCol]

theorem nrows_stepSynth (df : DF) : (stepSynth df).nrows = df.nrows :=
  nrows_synthFold features df

theorem LenWF_synthFold (l : List String) {df : DF} (hw : LenWF df) :
    LenWF (l.foldl (fun d f => if d.hasCol f then d else d.setCol f ⟨.f64, List.replicate d.nrows .na⟩) df) := by
  induction l generalizing df with
  | nil => exact hw
  | cons a t ih =>
    show LenWF (t.foldl _ (if df.hasCol a then df else df.setCol a _))
    by_cases hha : df.hasCol a
    · rw [if_pos hha]; exact ih hw
    · rw [if_neg hha]
      exact ih (LenWF_setCol hw (by simp))

theorem LenWF_stepSynth {df : DF} (hw : LenWF df) : LenWF (stepSynth df) :=
  LenWF_synthFold features hw

theorem hasCol_synthFold (l : List String) (df : DF) (m : String) (hm : m ∉ l) :
    (l.foldl (fun d f => if d.hasCol f then d else d.setCol f ⟨.f64, List.replicate d.nrows .na⟩) df).hasCol m
      = df.hasCol m := by
  induction l generalizing df with
  | nil => rfl
  | cons a t ih =>
    have hma : m ≠ a := by
      intro e
      exact hm (by simp [e])
    have hmt : m ∉ t := fun h2 => hm (by simp [h2])
    show (t.foldl _ (if df.hasCol a then df else df.setCol a _)).hasCol m = _
    by_cases hha : df.hasCol a
    · rw [if_pos hha, ih _ hmt]
    · rw [if_neg hha, ih _ hmt, hasCol_setCol_ne df a m _ hma]

theorem hasCol_stepSynth_nonfeature (df : DF) (m : String) (hm : m ∉ features) :
    (stepSynth df).hasCol m = df.hasCol m :=
  hasCol_synthFold features df m hm

/-! ### Pipeline-composite lemmas -/

theorem features_nodup : features.Nodup := by
  unfold features
  simp

theorem nrows_tail9 (d1 : DF) : (tail9 d1).nrows = d1.nrows := by
  simp only [tail9, d7of, stepImpute, stepToNumeric, stepSimNao]
  rw [nrows_applyAll, nrows_applyAll, nrows_stepSynth, stepMelting_nrows,
    nrows_transformCol, nrows_transformCol, stepAlias_nrows, stepAlias_nrows,
    stepAlias_nrows]

theorem nrows_stepKeep (d : DF) : (stepKeep d).nrows = d.nrows := rfl

theorem nrows_pipelineRest (d1 : DF) : (pipelineRest d1).nrows = d1.nrows := by
  unfold pipelineRest
  rw [nrows_stepKeep, nrows_tail9]

theorem LenWF_tail9 {d1 : DF} (hw : LenWF d1) : LenWF (tail9 d1) := by
  simp only [tail9, d7of, stepImpute, stepToNumeric, stepSimNao]
  exact LenWF_applyAll
    (LenWF_applyAll
      (LenWF_stepSynth
        (stepMelting_LenWF
          (LenWF_transformCol
            (LenWF_transformCol
              (stepAlias_LenWF _ _ _ _
                (stepAlias_LenWF _ _ _ _
                  (stepAlias_LenWF _ _ _ _ hw)))
              (wordMapCol_length _ _))
            (wordMapCol_length _ _))))
      (fun _ => toNumericCol_length))
    (fun f => imputeCol_length (defaultFor f))

theorem LenWF_pipelineRest {d1 : DF} (hw : LenWF d1) : LenWF (pipelineRest d1) :=
  LenWF_stepKeep (LenWF_tail9 hw)

theorem find_tail9_nonfeature (d1 : DF) (m : String) (hm : m ∉ features) :
    (tail9 d1).find m = d1.find m := by
  have hmf := hm
  simp only [features, List.mem_cons, not_or, List.mem_singleton] at hmf
  simp only [tail9, d7of, stepImpute, stepToNumeric, stepSimNao]
  rw [find_applyAll _ _ _ _ features_nodup, if_neg hm,
    find_applyAll _ _ _ _ features_nodup, if_neg hm,
    find_stepSynth, if_neg (by intro hc; exact hm hc.1),
    stepMelting_find_ne _ _ hmf.2.2.2.2.2.2.1,
    find_transformCol, if_neg hmf.2.2.2.2.2.1,
    find_transformCol, if_neg hmf.2.2.2.2.1,
    stepAlias_find_ne _ _ _ _ _ _ hmf.2.2.2.1,
    stepAlias_find_ne _ _ _ _ _ _ hmf.2.2.1,
    stepAlias_find_ne _ _ _ _ _ _ hmf.2.1]

theorem hasCol_tail9_nonfeature (d1 : DF) (m : String) (hm : m ∉ features) :
    (tail9 d1).hasCol m = d1.hasCol m := by
  have hmf := hm
  simp only [features, List.mem_cons, not_or, List.mem_singleton] at hmf
  simp only [tail9, d7of, stepImpute, stepToNumeric, stepSimNao]
  rw [hasCol_applyAll, hasCol_applyAll, hasCol_stepSynth_nonfeature _ _ hm,
    stepMelting_hasCol_ne _ _ hmf.2.2.2.2.2.2.1,
    hasCol_transformCol, hasCol_transformCol,
    stepAlias_hasCol_ne _ _ _ _ _ _ hmf.2.2.2.1,
    stepAlias_hasCol_ne _ _ _ _ _ _ hmf.2.2.1,
    stepAlias_hasCol_ne _ _ _ _ _ _ hmf.2.1]

/-- Tracking a non-feature column (such as `id` or `nome_material`) through
the pure tail of the pipeline: it survives exactly when it is one of the two
identity columns. -/
theorem find_pipelineRest_nonfeature (d1 : DF) (m : String) (hm : m ∉ features) :
    (pipelineRest d1).find m
      = if m ∈ (["id", "nome_material"] : List String) ∧ d1.hasCol m = true
        then d1.find m else none := by
  rw [show pipelineRest d1 = stepKeep (tail9 d1) from rfl, find_stepKeep,
    find_tail9_nonfeature _ _ hm]
  by_cases hid : m ∈ (["id", "nome_material"] : List String)
  · by_cases hhc : d1.hasCol m = true
    · have hmem : m ∈ List.filter (fun n => (tail9 d1).hasCol n) ["id", "nome_material"]
          ++ features := by
        refine List.mem_append.mpr (Or.inl ?_)
        refine List.mem_filter.mpr ⟨hid, ?_⟩
        rw [hasCol_tail9_nonfeature _ _ hm]
        exact hhc
      rw [if_pos hmem, if_pos ⟨hid, hhc⟩]
    · have hnmem : m ∉ List.filter (fun n => (tail9 d1).hasCol n) ["id", "nome_material"]
          ++ features := by
        intro hc
        rcases List.mem_append.mp hc with h | h
        · have h2 := (List.mem_filter.mp h).2
          rw [hasCol_tail9_nonfeature _ _ hm] at h2
          exact hhc h2
        · exact hm h
      rw [if_neg hnmem, if_neg (fun hc => hhc hc.2)]
  · have hnmem : m ∉ List.filter (fun n => (tail9 d1).hasCol n) ["id", "nome_material"]
        ++ features := by
      intro hc
      rcases List.mem_append.mp hc with h | h
      · exact hid (List.mem_filter.mp h).1
      · exact hm h
    rw [if_neg hnmem, if_neg (fun hc => hid hc.1)]

/-! ### Cell-level completeness lemmas -/

theorem toNumericCol_cells (c : Col) :
    (toNumericCol c).cells = c.cells.map toNumericCell := by
  unfold toNumericCol
  cases c.dtype <;> rfl

theorem toNumericCell_numOrNa (x : Cell) : (toNumericCell x).numOrNa := by
  cases x with
  | na => trivial
  | num q => trivial
  | str s =>
    show (cellOfLookup (toNumericCell.parseDec s.data)).numOrNa
    cases toNumericCell.parseDec s.data with
    | some q => trivial
    | none => trivial

theorem imputeCol_complete (d : ℚ) (c : Col) (h : ∀ x ∈ c.cells, x.numOrNa) :
    ∀ x ∈ (imputeCol d c).cells, ∃ q : ℚ, x = .num q := by
  unfold imputeCol
  split
  · rename_i hna
    intro x hx
    have fill : ∀ (v : ℚ) (y : Cell), y ∈ c.cells → ∃ q : ℚ, fillNaCell v y = .num q := by
      intro v y hy
      cases y with
      | na => exact ⟨v, rfl⟩
      | num q => exact ⟨q, rfl⟩
      | str s => exact absurd (h _ hy) (by simp [Cell.numOrNa])
    split at hx
    all_goals
      simp only [List.mem_map] at hx
      obtain ⟨y, hy, he⟩ := hx
      obtain ⟨q, hq⟩ := fill _ y hy
      exact ⟨q, by rw [← he, hq]⟩
  · rename_i hna
    intro x hx
    have hx2 := h x hx
    cases x with
    | na =>
      exfalso
      apply hna
      exact List.any_eq_true.mpr ⟨.na, hx, rfl⟩
    | num q => exact ⟨q, rfl⟩
    | str s => exact absurd hx2 (by simp [Cell.numOrNa])

theorem mapear_ok_elim {df out : DF} (h : mapear_valores df = .ok out) :
    ∃ d1, stepCusto df = .ok d1 ∧ out = pipelineRest d1 := by
  unfold mapear_valores at h
  cases hc : stepCusto df with
  | ok d1 =>
    rw [hc] at h
    simp only [Except.ok.injEq] at h
    exact ⟨d1, rfl, h.symm⟩
  | error e =>
    rw [hc] at h
    exact absurd h (by simp)

theorem length_of_find {df : DF} {n : String} {c : Col} (hw : LenWF df)
    (h : df.find n = some c) : c.cells.length = df.nrows := by
  obtain ⟨p, hp⟩ := Option.map_eq_some'.mp h
  rw [← hp.2]
  exact hw p (List.mem_of_find?_eq_some hp.1)

/-- Every canonical column is present after synthesis, and the coercion and
imputation steps then wrap it with `toNumericCol` and `imputeCol`. -/
theorem find_impute_toNumeric_synth (d7 : DF) (f : String) (hf : f ∈ features) :
    ∃ c8, (stepImpute (stepToNumeric (stepSynth d7))).find f
      = some (imputeCol (defaultFor f) (toNumericCol c8)) := by
  have h8 : ∃ c8, (stepSynth d7).find f = some c8 := by
    rw [find_stepSynth]
    by_cases hc : d7.hasCol f = true
    · rw [if_neg (by intro hcc; rw [hc] at hcc; exact absurd hcc.2 (by simp))]
      exact (hasCol_iff_find _ f).mp hc
    · rw [if_pos ⟨hf, by cases hb : d7.hasCol f with
        | true => exact absurd hb hc
        | false => rfl⟩]
      exact ⟨_, rfl⟩
  obtain ⟨c8, hc8⟩ := h8
  refine ⟨c8, ?_⟩
  unfold stepImpute stepToNumeric
  rw [find_applyAll _ _ _ _ features_nodup, if_pos hf,
    find_applyAll _ _ _ _ features_nodup, if_pos hf, hc8]
  rfl

theorem find_tail9_feature (d1 : DF) (f : String) (hf : f ∈ features) :
    ∃ c8, (tail9 d1).find f = some (imputeCol (defaultFor f) (toNumericCol c8)) :=
  find_impute_toNumeric_synth _ f hf

theorem toNumericCol_numOrNa (c : Col) :
    ∀ x ∈ (toNumericCol c).cells, x.numOrNa := by
  rw [toNumericCol_cells]
  intro x hx
  obtain ⟨y, hy, he⟩ := List.mem_map.mp hx
  rw [← he]
  exact toNumericCell_numOrNa y

/-- C3: for every raw input table, every row of the `mapear_valores` output
has the seven canonical feature columns present and fully numeric (finite,
since every number in the embedding is a rational) — zero missing entries. -/
theorem C3_completeness (df out : DF) (hwf : df.WF) (h : mapear_valores df = .ok out) :
    ∀ f ∈ features, ∃ c, out.find f = some c ∧ c.cells.length = df.nrows ∧
      ∀ x ∈ c.cells, ∃ q : ℚ, x = .num q := by
  obtain ⟨d1, hd1, hout⟩ := mapear_ok_elim h
  intro f hf
  obtain ⟨c8, h10⟩ := find_tail9_feature d1 f hf
  have hkeep : out.find f = some (imputeCol (defaultFor f) (toNumericCol c8)) := by
    rw [hout]
    show (stepKeep (tail9 d1)).find f = _
    rw [find_stepKeep, if_pos (List.mem_append.mpr (Or.inr hf)), h10]
  refine ⟨imputeCol (defaultFor f) (toNumericCol c8), hkeep, ?_, ?_⟩
  · have hw10 : LenWF (tail9 d1) := LenWF_tail9 (stepCusto_LenWF hd1 hwf.lenWF)
    have hlen := length_of_find hw10 h10
    rw [hlen, nrows_tail9, stepCusto_nrows hd1]
  · exact imputeCol_complete (defaultFor f) _ (toNumericCol_numOrNa c8)

/-- C7: `mapear_valores` output has exactly as many rows as the input, and
the identity columns pass through verbatim (row position stays a valid join
key into the raw table). -/
theorem C7_row_preservation (df out : DF) (hwf : df.WF)
    (h : mapear_valores df = .ok out) :
    out.nrows = df.nrows
    ∧ (∀ p ∈ out.cols, (Prod.snd p).cells.length = df.nrows)
    ∧ (∀ c, df.find "id" = some c → out.find "id" = some c)
    ∧ (∀ c, df.find "nome_material" = some c → out.find "nome_material" = some c) := by
  obtain ⟨d1, hd1, hout⟩ := mapear_ok_elim h
  have hn : out.nrows = df.nrows := by
    rw [hout, nrows_pipelineRest, stepCusto_nrows hd1]
  refine ⟨hn, ?_, ?_, ?_⟩
  · intro p hp
    have hw := LenWF_pipelineRest (stepCusto_LenWF hd1 hwf.lenWF)
    rw [hout] at hp
    have := hw p hp
    rw [this, nrows_pipelineRest, stepCusto_nrows hd1]
  · intro c hc
    have hne : ("id" : String) ≠ "custo_index" := by decide
    have hd1f : d1.find "id" = some c := by
      rw [stepCusto_find_ne hd1 hne]
      exact hc
    have hhc : d1.hasCol "id" = true := (hasCol_iff_find _ _).mpr ⟨c, hd1f⟩
    rw [hout, find_pipelineRest_nonfeature _ _ (by decide),
      if_pos ⟨by decide, hhc⟩]
    exact hd1f
  · intro c hc
    have hne : ("nome_material" : String) ≠ "custo_index" := by decide
    have hd1f : d1.find "nome_material" = some c := by
      rw [stepCusto_find_ne hd1 hne]
      exact hc
    have hhc : d1.hasCol "nome_material" = true := (hasCol_iff_find _ _).mpr ⟨c, hd1f⟩
    rw [hout, find_pipelineRest_nonfeature _ _ (by decide),
      if_pos ⟨by decide, hhc⟩]
    exact hd1f

/-! ## Claim theorems -/

/-- C2 (code bug in the source): the Normalizer is documented and specified
as total ("never fails on malformed input"), but on a raw table whose
object-dtyped `custo` column holds a missing entry, `_map_col_if_exists`
reaches `v.lower()` on a float NaN and `mapear_valores` raises
`AttributeError` — every sibling path first applies `astype(str)`, only the
`custo` path omits it. -/
theorem C2_custo_crash : mapear_valores dfBad = .error () := by
  with_unfolding_all decide

/-- C3 witness. -/
theorem C3_completeness_witness :
    DF.WF wdf3 ∧ mapear_valores wdf3 = .ok wout3 ∧
    (∀ f ∈ features, ∃ c, wout3.find f = some c ∧ c.cells.length = wdf3.nrows ∧
      ∀ x ∈ c.cells, ∃ q : ℚ, x = .num q) :=
  ⟨by with_unfolding_all decide, by with_unfolding_all decide,
   C3_completeness wdf3 wout3 (by with_unfolding_all decide)
     (by with_unfolding_all decide)⟩

/-- C7 witness. -/
theorem C7_row_preservation_witness :
    DF.WF wdf7 ∧ mapear_valores wdf7 = .ok wout7 ∧
    (wout7.nrows = wdf7.nrows
     ∧ (∀ p ∈ wout7.cols, (Prod.snd p).cells.length = wdf7.nrows)
     ∧ (∀ c, wdf7.find "id" = some c → wout7.find "id" = some c)
     ∧ (∀ c, wdf7.find "nome_material" = some c → wout7.find "nome_material" = some c)) :=
  ⟨by with_unfolding_all decide, by with_unfolding_all decide,
   C7_row_preservation wdf7 wout7 (by with_unfolding_all decide)
     (by with_unfolding_all decide)⟩

/-- C5: the matcher's query errors (`InvalidInput`, surfaced to the caller
as the `Except.error` result) exactly when the query is structurally wrong —
vector length not 7, a non-finite entry, or `k` exceeding the number of
fitted rows — and in particular `k = 100` against a 50-row index errors;
otherwise it returns normally. -/
theorem C5_invalid_iff :
    (∀ (modelo : List (List ℚ)) (dfo : DF) (v : List (Option ℚ)) (k : ℕ),
      recomendar_material modelo dfo v k = .error ()
        ↔ (v.length ≠ 7 ∨ (∃ x ∈ v, x = none) ∨ modelo.length < k))
    ∧ recomendar_material modelo50 ⟨0, []⟩ (List.replicate 7 (some 0)) 100 = .error () := by
  constructor
  · intro modelo dfo v k
    unfold recomendar_material
    split
    · rename_i hcond
      exact ⟨fun _ => hcond, fun _ => rfl⟩
    · rename_i hcond
      exact ⟨fun hcontra => absurd hcontra (by simp), fun hc => absurd hc hcond⟩
  · with_unfolding_all decide

/-! ### Ranking-order lemmas for the Matcher -/

theorem lexLE_total (a b : ℕ × ℚ) : lexLE a b ∨ lexLE b a := by
  unfold lexLE
  rcases lt_trichotomy a.2 b.2 with h | h | h
  · exact Or.inl (Or.inl h)
  · rcases Nat.le_total a.1 b.1 with h2 | h2
    · exact Or.inl (Or.inr ⟨h, h2⟩)
    · exact Or.inr (Or.inr ⟨h.symm, h2⟩)
  · exact Or.inr (Or.inl h)

theorem lexLE_trans {a b c : ℕ × ℚ} (h1 : lexLE a b) (h2 : lexLE b c) : lexLE a c := by
  unfold lexLE at *
  rcases h1 with h1 | ⟨h1e, h1i⟩
  · rcases h2 with h2 | ⟨h2e, h2i⟩
    · exact Or.inl (h1.trans h2)
    · exact Or.inl (h2e ▸ h1)
  · rcases h2 with h2 | ⟨h2e, h2i⟩
    · exact Or.inl (h1e ▸ h2)
    · exact Or.inr ⟨h1e.trans h2e, h1i.trans h2i⟩

theorem insertLex_perm (x : ℕ × ℚ) (l : List (ℕ × ℚ)) :
    (insertLex x l).Perm (x :: l) := by
  induction l with
  | nil => rfl
  | cons y ys ih =>
    unfold insertLex
    split
    · rfl
    · exact (ih.cons y).trans (List.Perm.swap x y ys)

theorem sortLex_perm (l : List (ℕ × ℚ)) : (sortLex l).Perm l := by
  induction l with
  | nil => rfl
  | cons x xs ih =>
    exact (insertLex_perm x (sortLex xs)).trans (ih.cons x)

theorem insertLex_pairwise (x : ℕ × ℚ) (l : List (ℕ × ℚ))
    (h : l.Pairwise lexLE) : (insertLex x l).Pairwise lexLE := by
  induction l with
  | nil => exact List.pairwise_singleton lexLE x
  | cons y ys ih =>
    unfold insertLex
    split
    · rename_i hle
      refine List.pairwise_cons.mpr ⟨?_, h⟩
      intro z hz
      rcases List.mem_cons.mp hz with hz | hz
      · rw [hz]; exact hle
      · exact lexLE_trans hle ((List.pairwise_cons.mp h).1 z hz)
    · rename_i hnle
      have hyx : lexLE y x := (lexLE_total x y).resolve_left hnle
      obtain ⟨hy, hys⟩ := List.pairwise_cons.mp h
      refine List.pairwise_cons.mpr ⟨?_, ih hys⟩
      intro z hz
      have hmem := (insertLex_perm x ys).mem_iff.mp hz
      rcases List.mem_cons.mp hmem with hz2 | hz2
      · rw [hz2]; exact hyx
      · exact hy z hz2

theorem sortLex_pairwise (l : List (ℕ × ℚ)) : (sortLex l).Pairwise lexLE := by
  induction l with
  | nil => exact List.Pairwise.nil
  | cons x xs ih => exact insertLex_pairwise x (sortLex xs) ih

theorem filterMap_id_map_some (l : List ℚ) : (l.map some).filterMap id = l := by
  induction l with
  | nil => rfl
  | cons x xs ih => simp [ih]

theorem map_fst_withIdx (m : List (List ℚ)) :
    (withIdx m).map Prod.fst = List.range m.length := by
  unfold withIdx
  exact List.map_fst_zip _ _ (by simp)

theorem preparar_modelo_ok_rows {df : DF} {M : List (List ℚ)}
    (h : preparar_modelo df = .ok M) : featureMatrix df = some M := by
  unfold preparar_modelo at h
  cases hm : featureMatrix df with
  | none => rw [hm] at h; exact absurd h (by simp)
  | some m =>
    rw [hm] at h
    simp only [] at h
    by_cases he : m.isEmpty = true
    · rw [if_pos he] at h
      exact absurd h (by simp)
    · rw [if_neg he] at h
      exact congrArg some (Except.ok.inj h)

/-- C4: querying a fitted matcher with `k = N` over an `N`-row table returns
all `N` fitted rows (the returned row positions are a permutation of
`0..N-1`), in non-decreasing order of (squared) Euclidean distance from the
query, with equal-distance ties in original row order. -/
theorem C4_query_all_sorted (df dfo : DF) (M : List (List ℚ)) (v : List ℚ)
    (hM : preparar_modelo df = .ok M) (hv : v.length = 7) :
    ∃ l, recomendar_material M dfo (v.map some) M.length = .ok l
      ∧ (l.map Prod.fst).Perm (List.range M.length)
      ∧ l.Pairwise (fun a b => a.2 ≤ b.2 ∧ (a.2 = b.2 → a.1 < b.1)) := by
  have hcond : ¬((v.map some).length ≠ 7 ∨ (∃ x ∈ v.map some, x = none)
      ∨ M.length < M.length) := by
    push_neg
    refine ⟨by simpa using hv, ?_, le_refl _⟩
    intro x hx
    obtain ⟨y, -, he⟩ := List.mem_map.mp hx
    rw [← he]
    simp
  refine ⟨kneighbors M ((v.map some).filterMap id) M.length, ?_, ?_, ?_⟩
  · unfold recomendar_material
    rw [if_neg hcond]
  all_goals
    rw [filterMap_id_map_some]
    unfold kneighbors
  case _ =>
    have hlen : (sortLex ((withIdx M).map (fun p => (p.1, sqDist v p.2)))).length
        = M.length := by
      rw [(sortLex_perm _).length_eq, List.length_map]
      unfold withIdx
      simp
    rw [List.take_of_length_le (by rw [hlen])]
    have hperm := (sortLex_perm ((withIdx M).map (fun p => (p.1, sqDist v p.2)))).map Prod.fst
    refine hperm.trans ?_
    rw [List.map_map]
    rw [show (Prod.fst ∘ fun p : ℕ × List ℚ => (p.1, sqDist v p.2)) = Prod.fst from rfl]
    rw [map_fst_withIdx]
  case _ =>
    refine List.Pairwise.sublist (List.take_sublist _ _) ?_
    have hsorted := sortLex_pairwise ((withIdx M).map (fun p => (p.1, sqDist v p.2)))
    have hnd : ((sortLex ((withIdx M).map (fun p => (p.1, sqDist v p.2)))).map Prod.fst).Nodup := by
      have hperm := (sortLex_perm ((withIdx M).map (fun p => (p.1, sqDist v p.2)))).map Prod.fst
      rw [List.Perm.nodup_iff (hperm.trans (by
        rw [List.map_map,
          show (Prod.fst ∘ fun p : ℕ × List ℚ => (p.1, sqDist v p.2)) = Prod.fst from rfl,
          map_fst_withIdx]))]
      exact List.nodup_range _
    have hne : (sortLex ((withIdx M).map (fun p => (p.1, sqDist v p.2)))).Pairwise
        (fun a b => a.1 ≠ b.1) := by
      have h2 : ((sortLex ((withIdx M).map (fun p => (p.1, sqDist v p.2)))).map
          Prod.fst).Pairwise (fun a b => a ≠ b) := hnd
      rw [List.pairwise_map] at h2
      exact h2
    refine (hsorted.and hne).imp ?_
    rintro a b ⟨hle, hfst⟩
    unfold lexLE at hle
    rcases hle with h | ⟨he, hi⟩
    · exact ⟨le_of_lt h, fun he => absurd he (ne_of_lt h)⟩
    · exact ⟨le_of_eq he, fun _ => lt_of_le_of_ne hi hfst⟩

/-- C4 witness. -/
theorem C4_query_all_sorted_witness :
    preparar_modelo wout7 = .ok M4 ∧ q7.length = 7 ∧
    (∃ l, recomendar_material M4 wdf7 (q7.map some) M4.length = .ok l
      ∧ (l.map Prod.fst).Perm (List.range M4.length)
      ∧ l.Pairwise (fun a b => a.2 ≤ b.2 ∧ (a.2 = b.2 → a.1 < b.1))) :=
  ⟨by with_unfolding_all decide, rfl,
   C4_query_all_sorted wout7 wdf7 M4 q7 (by with_unfolding_all decide) rfl⟩

/-- C1 counterexample: on the spec's example text with the concrete
reference table `refDF` (thermal median `7/2`, melting median `450`),
`texto_para_vetor` does NOT return the claimed vector with 0 in the
biodegradable slot — `"não biodegradável"` contains the substring
`"biodegrad"`, so the parser sets the field to 1. -/
theorem C1_counterexample :
    texto_para_vetor txtC1 (some refDF)
      ≠ .ok [some 1, some 900, some 200, some (7/2), some 0, some 0, some 450] := by
  with_unfolding_all decide

/-- C1 (amended): for the text `"leve, barato, resistência alta, não
biodegradável"` and any reference table whose thermal-conductivity and
melting-point medians resolve to `mc` and `mm`, the vector is
`[1, 900, 200, mc, 0, 1, mm]` — the recyclable field is 0, but the
biodegradable field is 1 (the keyword matcher has no negation handling). -/
theorem C1_texto_amended (pop : Option DF) (mc mm : Option ℚ)
    (h1 : medianOr pop "thermal_conductivity_W_mK" 1 = .ok mc)
    (h2 : medianOr pop "melting_point_C" 300 = .ok mm) :
    texto_para_vetor txtC1 pop
      = .ok [some 1, some 900, some 200, mc, some 0, some 1, mm] := by
  have hd : densOf (pyLower txtC1).data pop = .ok (some 900) := by
    unfold densOf
    rw [if_pos (by with_unfolding_all decide)]
  have ht : tensOf (pyLower txtC1).data pop = .ok (some 200) := by
    unfold tensOf
    rw [if_neg (by with_unfolding_all decide), if_pos (by with_unfolding_all decide)]
  have hc : condOf (pyLower txtC1).data pop = .ok mc := by
    unfold condOf
    rw [if_neg (by with_unfolding_all decide), if_neg (by with_unfolding_all decide),
      show searchCond (pyLower txtC1).data = none from by with_unfolding_all decide]
    exact h1
  have htp : tempOf (pyLower txtC1).data pop = .ok mm := by
    unfold tempOf
    rw [show searchTemp (pyLower txtC1).data = none from by with_unfolding_all decide,
      if_neg (by with_unfolding_all decide), if_neg (by with_unfolding_all decide)]
    exact h2
  simp only [texto_para_vetor]
  rw [hd, ht, hc, htp]
  rw [show custoOf (pyLower txtC1).data = 1 from by with_unfolding_all decide,
    show reciclOf (pyLower txtC1).data = 0 from by with_unfolding_all decide,
    show bioOf (pyLower txtC1).data = 1 from by with_unfolding_all decide]

/-- C1 witness. -/
theorem C1_texto_amended_witness :
    medianOr (some refDF) "thermal_conductivity_W_mK" 1 = .ok (some (7/2))
    ∧ medianOr (some refDF) "melting_point_C" 300 = .ok (some 450)
    ∧ texto_para_vetor txtC1 (some refDF)
      = .ok [some 1, some 900, some 200, some (7/2), some 0, some 1, some 450] :=
  ⟨by with_unfolding_all decide, by with_unfolding_all decide,
   C1_texto_amended (some refDF) (some (7/2)) (some 450)
     (by with_unfolding_all decide) (by with_unfolding_all decide)⟩

/-- C8 counterexample: the text `"5 kg/m3"` contains none of the density
keywords and contains a number followed by `kg/m3`, yet the density field
comes out as the default 2000, not 5 — the `kg/m3` pattern requires 2–5
digits. -/
theorem C8_counterexample :
    (texto_para_vetor "5 kg/m3" none).map (fun l => l.get? 1) = .ok (some (some 2000))
    ∧ (2000 : ℚ) ≠ 5
    ∧ hasSub (pyLower "5 kg/m3").data "leve".data = false
    ∧ hasSub (pyLower "5 kg/m3").data "levíssimo".data = false
    ∧ hasSub (pyLower "5 kg/m3").data "pesado".data = false
    ∧ hasSub (pyLower "5 kg/m3").data "médio".data = false := by
  with_unfolding_all decide

/-- C8 (amended): for every text containing none of the density keyword
substrings (`leve`, `levíssimo`, `pesad`(`o`), `médio`), the density field
of `texto_para_vetor` follows the regex cascade: the leftmost 2–5-digit
`kg/m3` match, else the leftmost 1–4-digit (optionally fractional) `g/cm3`
match times 1000, else the reference-table median (or 2000 without a
reference table). -/
theorem C8_density_cascade (texto : String) (pop : Option DF) (l : List (Option ℚ))
    (h : texto_para_vetor texto pop = .ok l)
    (h1 : hasSub (pyLower texto).data "leve".data = false)
    (h2 : hasSub (pyLower texto).data "levíssimo".data = false)
    (h3 : hasSub (pyLower texto).data "pesado".data = false)
    (h4 : hasSub (pyLower texto).data "pesad".data = false)
    (h5 : hasSub (pyLower texto).data "médio".data = false) :
    match searchKg (pyLower texto).data, searchGcm (pyLower texto).data with
    | some v, _ => l.get? 1 = some (some v)
    | none, some v => l.get? 1 = some (some (v * 1000))
    | none, none =>
      ∃ r, medianOr pop "densidade_kg_m3" 2000 = .ok r ∧ l.get? 1 = some r := by
  simp only [texto_para_vetor] at h
  cases hdens : densOf (pyLower texto).data pop with
  | error e =>
    rw [hdens] at h
    simp at h
  | ok dens =>
  cases htens : tensOf (pyLower texto).data pop with
  | error e =>
    rw [hdens, htens] at h
    simp at h
  | ok tens =>
  cases hcond : condOf (pyLower texto).data pop with
  | error e =>
    rw [hdens, htens, hcond] at h
    simp at h
  | ok cond =>
  cases htemp : tempOf (pyLower texto).data pop with
  | error e =>
    rw [hdens, htens, hcond, htemp] at h
    simp at h
  | ok temp =>
  rw [hdens, htens, hcond, htemp] at h
  simp only [Except.ok.injEq] at h
  have hl : l.get? 1 = some dens := by
    rw [← h]
    rfl
  have hdens2 : Except.ok (ε := Unit) dens
      = (match searchKg (pyLower texto).data with
        | some v => .ok (some v)
        | none =>
          match searchGcm (pyLower texto).data with
          | some v => .ok (some (v * 1000))
          | none => medianOr pop "densidade_kg_m3" 2000) := by
    rw [← hdens]
    unfold densOf
    rw [if_neg (by simp [h1, h2]), if_neg (by simp [h3, h4]), if_neg (by simp [h5])]
  cases hkg : searchKg (pyLower texto).data with
  | some v =>
    rw [hkg] at hdens2
    simp only [Except.ok.injEq] at hdens2
    rw [hl, hdens2]
  | none =>
    rw [hkg] at hdens2
    cases hgcm : searchGcm (pyLower texto).data with
    | some v =>
      rw [hgcm] at hdens2
      simp only [Except.ok.injEq] at hdens2
      rw [hl, hdens2]
    | none =>
      rw [hgcm] at hdens2
      exact ⟨dens, hdens2.symm, hl⟩

/-- C8 witness. -/
theorem C8_density_cascade_witness :
    texto_para_vetor "material 123 kg/m3" none
      = .ok [some 3, some 123, some 50, some 1, some 0, some 0, some 300]
    ∧ (match searchKg (pyLower "material 123 kg/m3").data,
        searchGcm (pyLower "material 123 kg/m3").data with
      | some v, _ =>
        ([some 3, some 123, some 50, some 1, some 0, some 0, some 300]
          : List (Option ℚ)).get? 1 = some (some v)
      | none, some v =>
        ([some 3, some 123, some 50, some 1, some 0, some 0, some 300]
          : List (Option ℚ)).get? 1 = some (some (v * 1000))
      | none, none =>
        ∃ r, medianOr none "densidade_kg_m3" 2000 = .ok r
          ∧ ([some 3, some 123, some 50, some 1, some 0, some 0, some 300]
              : List (Option ℚ)).get? 1 = some r) :=
  ⟨by with_unfolding_all decide,
   C8_density_cascade "material 123 kg/m3" none
     [some 3, some 123, some 50, some 1, some 0, some 0, some 300]
     (by with_unfolding_all decide) (by with_unfolding_all decide)
     (by with_unfolding_all decide) (by with_unfolding_all decide)
     (by with_unfolding_all decide) (by with_unfolding_all decide)⟩

theorem stepSimNao_find_ne (df : DF) (n m : String) (h : m ≠ n) :
    (stepSimNao df n).find m = df.find m := by
  unfold stepSimNao
  rw [find_transformCol, if_neg h]

/-- A present non-boolean canonical column reaches step 7 untouched: every
aliasing step is skipped (its target is already present or is another
column), and the boolean re-mapping only touches `reciclavel` and
`biodegradavel`. -/
theorem find_chain_to_d7 {d1 : DF} {f : String} {c : Col}
    (hf : f ∈ nonBoolFeatures) (hfind : d1.find f = some c) :
    (d7of d1).find f = some c := by
  simp only [nonBoolFeatures, List.mem_cons, List.mem_singleton] at hf
  simp only [d7of]
  rcases hf with rfl | rfl | rfl | rfl | rfl | hfalse
  · rw [stepMelting_find_ne _ _ (by decide), stepSimNao_find_ne _ _ _ (by decide),
      stepSimNao_find_ne _ _ _ (by decide), stepAlias_find_ne _ _ _ _ _ _ (by decide),
      stepAlias_find_ne _ _ _ _ _ _ (by decide), stepAlias_find_ne _ _ _ _ _ _ (by decide)]
    exact hfind
  · rw [stepMelting_find_ne _ _ (by decide), stepSimNao_find_ne _ _ _ (by decide),
      stepSimNao_find_ne _ _ _ (by decide), stepAlias_find_ne _ _ _ _ _ _ (by decide),
      stepAlias_find_ne _ _ _ _ _ _ (by decide),
      stepAlias_present ((hasCol_iff_find _ _).mpr ⟨c, hfind⟩)]
    exact hfind
  · rw [stepMelting_find_ne _ _ (by decide), stepSimNao_find_ne _ _ _ (by decide),
      stepSimNao_find_ne _ _ _ (by decide), stepAlias_find_ne _ _ _ _ _ _ (by decide)]
    have h2 : (stepAlias d1 "densidade_kg_m3" "peso" true densMap).find
        "tensile_strength_MPa" = some c := by
      rw [stepAlias_find_ne _ _ _ _ _ _ (by decide)]
      exact hfind
    rw [stepAlias_present ((hasCol_iff_find _ _).mpr ⟨c, h2⟩)]
    exact h2
  · rw [stepMelting_find_ne _ _ (by decide), stepSimNao_find_ne _ _ _ (by decide),
      stepSimNao_find_ne _ _ _ (by decide)]
    have h2 : (stepAlias (stepAlias d1 "densidade_kg_m3" "peso" true densMap)
        "tensile_strength_MPa" "resistencia" false resMap).find
        "thermal_conductivity_W_mK" = some c := by
      rw [stepAlias_find_ne _ _ _ _ _ _ (by decide),
        stepAlias_find_ne _ _ _ _ _ _ (by decide)]
      exact hfind
    rw [stepAlias_present ((hasCol_iff_find _ _).mpr ⟨c, h2⟩)]
    exact h2
  · have h2 : (stepSimNao (stepSimNao
        (stepAlias (stepAlias (stepAlias d1
            "densidade_kg_m3" "peso" true densMap)
            "tensile_strength_MPa" "resistencia" false resMap)
            "thermal_conductivity_W_mK" "condutividade" false condMap)
        "reciclavel") "biodegradavel").find "melting_point_C" = some c := by
      rw [stepSimNao_find_ne _ _ _ (by decide), stepSimNao_find_ne _ _ _ (by decide),
        stepAlias_find_ne _ _ _ _ _ _ (by decide),
        stepAlias_find_ne _ _ _ _ _ _ (by decide),
        stepAlias_find_ne _ _ _ _ _ _ (by decide)]
      exact hfind
    rw [stepMelting_present ((hasCol_iff_find _ _).mpr ⟨c, h2⟩)]
    exact h2
  · exact absurd hfalse (by simp)

theorem toNumericCol_get_num (c : Col) (i : ℕ) (q : ℚ)
    (h : c.cells.get? i = some (.num q)) :
    (toNumericCol c).cells.get? i = some (.num q) := by
  rw [toNumericCol_cells, List.get?_map, h]
  rfl

theorem imputeCol_get_num (d : ℚ) (c : Col) (i : ℕ) (q : ℚ)
    (h : c.cells.get? i = some (.num q)) :
    (imputeCol d c).cells.get? i = some (.num q) := by
  unfold imputeCol
  split
  · split
    all_goals
      rw [List.get?_map, h]
      rfl
  · exact h

/-- C9: a non-boolean canonical column already present with numeric dtype
passes through `mapear_valores` value-for-value — no range validation,
clamping, or rescaling; out-of-range values survive verbatim. -/
theorem C9_numeric_passthrough (df out : DF) (f : String) (c : Col)
    (hf : f ∈ nonBoolFeatures)
    (h : mapear_valores df = .ok out)
    (hc : df.find f = some c) (hd : c.dtype = .i64 ∨ c.dtype = .f64) :
    ∃ c', out.find f = some c' ∧
      ∀ i q, c.cells.get? i = some (.num q) → c'.cells.get? i = some (.num q) := by
  obtain ⟨d1, hd1, hout⟩ := mapear_ok_elim h
  have hfd1 : d1.find f = some c := by
    by_cases hfc : f = "custo_index"
    · subst hfc
      have hp := stepCusto_present ((hasCol_iff_find df _).mpr ⟨c, hc⟩)
      rw [hd1] at hp
      rw [Except.ok.inj hp]
      exact hc
    · rw [stepCusto_find_ne hd1 hfc]
      exact hc
  have h7 := find_chain_to_d7 hf hfd1
  have hfeat : f ∈ features := by
    simp only [nonBoolFeatures, List.mem_cons, List.mem_singleton] at hf
    rcases hf with rfl | rfl | rfl | rfl | rfl | hfalse
    · decide
    · decide
    · decide
    · decide
    · decide
    · exact absurd hfalse (by simp)
  have h8 : (stepSynth (d7of d1)).find f = some c := by
    rw [find_stepSynth, if_neg (by
      intro hcc
      rw [(hasCol_iff_find _ _).mpr ⟨c, h7⟩] at hcc
      exact absurd hcc.2 (by simp))]
    exact h7
  have h10 : (tail9 d1).find f
      = some (imputeCol (defaultFor f) (toNumericCol c)) := by
    show (stepImpute (stepToNumeric (stepSynth (d7of d1)))).find f = _
    unfold stepImpute stepToNumeric
    rw [find_applyAll _ _ _ _ features_nodup, if_pos hfeat,
      find_applyAll _ _ _ _ features_nodup, if_pos hfeat, h8]
    rfl
  refine ⟨imputeCol (defaultFor f) (toNumericCol c), ?_, ?_⟩
  · rw [hout]
    show (stepKeep (tail9 d1)).find f = _
    rw [find_stepKeep, if_pos (List.mem_append.mpr (Or.inr hfeat)), h10]
  · intro i q hq
    exact imputeCol_get_num _ _ i q (toNumericCol_get_num c i q hq)

/-- C9 witness. -/
theorem C9_numeric_passthrough_witness :
    ("custo_index" : String) ∈ nonBoolFeatures
    ∧ mapear_valores wdf9 = .ok wout9
    ∧ wdf9.find "custo_index" = some ⟨.f64, [.num (-5), .num 999]⟩
    ∧ (∃ c', wout9.find "custo_index" = some c' ∧
        ∀ i q, (⟨.f64, [.num (-5), .num 999]⟩ : Col).cells.get? i = some (.num q)
          → c'.cells.get? i = some (.num q)) :=
  ⟨by decide, by with_unfolding_all decide, by with_unfolding_all decide,
   C9_numeric_passthrough wdf9 wout9 "custo_index" ⟨.f64, [.num (-5), .num 999]⟩
     (by decide) (by with_unfolding_all decide) (by with_unfolding_all decide)
     (Or.inr rfl)⟩

/-- Pushing a present feature column from step 7 through synthesis,
coercion, imputation and the final column selection. -/
theorem find_out_of_d7 {d1 : DF} {f : String} {c : Col} (hfeat : f ∈ features)
    (h7 : (d7of d1).find f = some c) :
    (pipelineRest d1).find f = some (imputeCol (defaultFor f) (toNumericCol c)) := by
  have h8 : (stepSynth (d7of d1)).find f = some c := by
    rw [find_stepSynth, if_neg (by
      intro hcc
      rw [(hasCol_iff_find _ _).mpr ⟨c, h7⟩] at hcc
      exact absurd hcc.2 (by simp))]
    exact h7
  have h10 : (tail9 d1).find f
      = some (imputeCol (defaultFor f) (toNumericCol c)) := by
    show (stepImpute (stepToNumeric (stepSynth (d7of d1)))).find f = _
    unfold stepImpute stepToNumeric
    rw [find_applyAll _ _ _ _ features_nodup, if_pos hfeat,
      find_applyAll _ _ _ _ features_nodup, if_pos hfeat, h8]
    rfl
  show (stepKeep (tail9 d1)).find f = _
  rw [find_stepKeep, if_pos (List.mem_append.mpr (Or.inr hfeat)), h10]

theorem mapCustoCells_medio {l : List Cell} (h : ∀ x ∈ l, x = .str "medio") :
    ∃ r, mapCustoCells MAP_CUSTO l = .ok r ∧ ∀ y ∈ r, y = .na := by
  induction l with
  | nil => exact ⟨[], rfl, by simp⟩
  | cons x xs ih =>
    obtain ⟨r, hr, hna⟩ := ih (fun y hy => h y (List.mem_cons_of_mem x hy))
    have hx : x = .str "medio" := h x (List.mem_cons_self x xs)
    refine ⟨.na :: r, ?_, ?_⟩
    · rw [hx]
      show (match mapLowerCell MAP_CUSTO (strStripCell (.str "medio")),
        mapCustoCells MAP_CUSTO xs with
        | .ok y, .ok ys => Except.ok (y :: ys)
        | .error e, _ => .error e
        | .ok _, .error e => .error e) = .ok (Cell.na :: r)
      rw [show mapLowerCell MAP_CUSTO (strStripCell (.str "medio")) = .ok .na from by
        decide, hr]
    · intro y hy
      rcases List.mem_cons.mp hy with hy | hy
      · exact hy
      · exact hna y hy

theorem toNumericCol_all_na {c : Col} (h : ∀ y ∈ c.cells, y = .na) :
    ∀ x ∈ (toNumericCol c).cells, x = .na := by
  rw [toNumericCol_cells]
  intro x hx
  obtain ⟨y, hy, he⟩ := List.mem_map.mp hx
  rw [← he, h y hy]
  rfl

theorem toNumericCol_all_num {c : Col} {v : ℚ} (h : ∀ y ∈ c.cells, y = .num v) :
    ∀ x ∈ (toNumericCol c).cells, x = .num v := by
  rw [toNumericCol_cells]
  intro x hx
  obtain ⟨y, hy, he⟩ := List.mem_map.mp hx
  rw [← he, h y hy]
  rfl

theorem imputeCol_all_na {d : ℚ} {c : Col} (h : ∀ y ∈ c.cells, y = .na) :
    ∀ x ∈ (imputeCol d c).cells, x = .num d := by
  unfold imputeCol
  split
  · have hfm : c.cells.filterMap Cell.numVal = [] := by
      rw [List.filterMap_eq_nil]
      intro a ha
      rw [h a ha]
      rfl
    rw [hfm]
    rw [show median [] = none from rfl]
    intro x hx
    obtain ⟨y, hy, he⟩ := List.mem_map.mp hx
    rw [← he, h y hy]
    rfl
  · rename_i hna
    intro x hx
    exfalso
    cases hc : c.cells with
    | nil =>
      rw [hc] at hx
      exact absurd hx (by simp)
    | cons y ys =>
      apply hna
      rw [hc]
      refine List.any_eq_true.mpr ⟨y, List.mem_cons_self y ys, ?_⟩
      rw [h y (by rw [hc]; exact List.mem_cons_self y ys)]
      rfl

theorem imputeCol_all_num {d v : ℚ} {c : Col} (h : ∀ y ∈ c.cells, y = .num v) :
    ∀ x ∈ (imputeCol d c).cells, x = .num v := by
  unfold imputeCol
  split
  · rename_i hna
    exfalso
    obtain ⟨y, hy, he⟩ := List.any_eq_true.mp hna
    rw [h y hy] at he
    exact absurd he (by simp [Cell.isNa])
  · exact h

theorem wordMapCol_medio_dens {c : Col} (h : ∀ x ∈ c.cells, x = .str "medio") :
    ∀ y ∈ (wordMapCol true densMap c).cells, y = .num 5000 := by
  unfold wordMapCol mkMappedCol
  intro y hy
  obtain ⟨x, hx, he⟩ := List.mem_map.mp hy
  rw [← he, h x hx]
  show cellOfLookup (lookupMap densMap (pyLower (pyStrip (astypeStr c.dtype (.str "medio")))))
    = .num 5000
  rw [show astypeStr c.dtype (.str "medio") = "medio" from rfl]
  decide

/-- C10: the `custo` vocabulary accepts only accented spellings while the
`peso` map also accepts `"medio"`: deriving `custo_index` from a `custo`
column of `"medio"` cells leaves every mapped entry missing and the default
3 is imputed (never the accented mapping 2), whereas deriving density from a
`peso` column of `"medio"` cells maps every entry to 5000. -/
theorem C10_custo_accent :
    (∀ (df out : DF) (c : Col),
      mapear_valores df = .ok out →
      df.hasCol "custo_index" = false →
      df.find "custo" = some c → c.dtype = .obj →
      (∀ x ∈ c.cells, x = .str "medio") →
      ∃ c', out.find "custo_index" = some c' ∧ ∀ x ∈ c'.cells, x = .num 3)
    ∧ (∀ (df out : DF) (c : Col),
      mapear_valores df = .ok out →
      df.hasCol "densidade_kg_m3" = false →
      df.find "peso" = some c →
      (∀ x ∈ c.cells, x = .str "medio") →
      ∃ c', out.find "densidade_kg_m3" = some c' ∧ ∀ x ∈ c'.cells, x = .num 5000)
    ∧ lookupMap MAP_CUSTO "medio" = none
    ∧ lookupMap densMap "medio" = some 5000 := by
  refine ⟨?_, ?_, by decide, by decide⟩
  · intro df out c h hnoc hc hobj hcells
    obtain ⟨d1, hd1, hout⟩ := mapear_ok_elim h
    obtain ⟨r, hr, hna⟩ := mapCustoCells_medio hcells
    have hstep : stepCusto df = .ok (df.setCol "custo_index" (mkMappedCol true r)) := by
      unfold stepCusto
      rw [if_pos (by
        rw [hnoc, (hasCol_iff_find _ _).mpr ⟨c, hc⟩]
        rfl)]
      rw [show map_col_if_exists df "custo" MAP_CUSTO
          = .ok (some (mkMappedCol true r)) from by
        unfold map_col_if_exists
        rw [hc]
        simp only [hobj, if_pos, hr]]
    rw [hd1] at hstep
    have hd1eq : d1 = df.setCol "custo_index" (mkMappedCol true r) :=
      (Except.ok.inj hstep)
    have hfd1 : d1.find "custo_index" = some (mkMappedCol true r) := by
      rw [hd1eq, find_setCol_self]
    have h7 := find_chain_to_d7 (by decide) hfd1
    have hfind := find_out_of_d7 (by decide) h7
    rw [hout]
    refine ⟨_, hfind, ?_⟩
    have hna2 : ∀ y ∈ (mkMappedCol true r).cells, y = .na := hna
    rw [show defaultFor "custo_index" = 3 from rfl]
    exact imputeCol_all_na (toNumericCol_all_na hna2)
  · intro df out c h hnod hc hcells
    obtain ⟨d1, hd1, hout⟩ := mapear_ok_elim h
    have hfd1 : d1.find "peso" = some c := by
      rw [stepCusto_find_ne hd1 (by decide)]
      exact hc
    have hnod1 : d1.hasCol "densidade_kg_m3" = false := by
      rw [stepCusto_hasCol_ne hd1 (by decide)]
      exact hnod
    have hstep2 : stepAlias d1 "densidade_kg_m3" "peso" true densMap
        = d1.setCol "densidade_kg_m3" (wordMapCol true densMap c) := by
      unfold stepAlias
      rw [if_pos (by
        rw [hnod1, (hasCol_iff_find _ _).mpr ⟨c, hfd1⟩]
        rfl)]
      rw [hfd1]
    have h2 : (stepAlias d1 "densidade_kg_m3" "peso" true densMap).find
        "densidade_kg_m3" = some (wordMapCol true densMap c) := by
      rw [hstep2, find_setCol_self]
    have h7 : (d7of d1).find "densidade_kg_m3" = some (wordMapCol true densMap c) := by
      simp only [d7of]
      rw [stepMelting_find_ne _ _ (by decide), stepSimNao_find_ne _ _ _ (by decide),
        stepSimNao_find_ne _ _ _ (by decide), stepAlias_find_ne _ _ _ _ _ _ (by decide),
        stepAlias_find_ne _ _ _ _ _ _ (by decide)]
      exact h2
    have hfind := find_out_of_d7 (by decide) h7
    rw [hout]
    refine ⟨_, hfind, ?_⟩
    exact imputeCol_all_num (toNumericCol_all_num (wordMapCol_medio_dens hcells))

/-- C10 witness. -/
theorem C10_custo_accent_witness :
    mapear_valores w10a = .ok wout10a
    ∧ w10a.hasCol "custo_index" = false
    ∧ w10a.find "custo" = some ⟨.obj, [.str "medio", .str "medio"]⟩
    ∧ (∃ c', wout10a.find "custo_index" = some c' ∧ ∀ x ∈ c'.cells, x = .num 3)
    ∧ mapear_valores w10b = .ok wout10b
    ∧ w10b.hasCol "densidade_kg_m3" = false
    ∧ w10b.find "peso" = some ⟨.obj, [.str "medio"]⟩
    ∧ (∃ c', wout10b.find "densidade_kg_m3" = some c'
        ∧ ∀ x ∈ c'.cells, x = .num 5000) :=
  ⟨by decide, by decide, by decide,
   (C10_custo_accent).1 w10a wout10a ⟨.obj, [.str "medio", .str "medio"]⟩
     (by decide) (by decide) (by decide) rfl (by decide),
   by decide, by decide, by decide,
   (C10_custo_accent).2.1 w10b wout10b ⟨.obj, [.str "medio"]⟩
     (by decide) (by decide) (by decide) (by decide)⟩

/-! ### Column-level fixpoint lemmas for canonical tables -/

theorem map_toNumericCell_id {l : List Cell} (h : ∀ x ∈ l, x.isNum) :
    l.map toNumericCell = l := by
  rw [List.map_congr_left (g := id) ?_, List.map_id]
  intro x hx
  cases x with
  | num q => rfl
  | na => exact absurd (h _ hx) (by simp [Cell.isNum])
  | str s => exact absurd (h _ hx) (by simp [Cell.isNum])

theorem any_isNa_false_of_num {l : List Cell} (h : ∀ x ∈ l, x.isNum) :
    l.any Cell.isNa = false := by
  rw [List.any_eq_false]
  intro x hx
  cases x with
  | num q => simp [Cell.isNa]
  | na => exact absurd (h _ hx) (by simp [Cell.isNum])
  | str s => exact absurd (h _ hx) (by simp [Cell.isNum])

theorem toNumericCol_canon {c : Col} (hd : c.dtype = .i64 ∨ c.dtype = .f64)
    (h : ∀ x ∈ c.cells, x.isNum) : toNumericCol c = c := by
  unfold toNumericCol
  rcases hd with hd | hd
  all_goals
    rw [hd]
    simp only
    rw [map_toNumericCell_id h, ← hd]

theorem imputeCol_noNa {d : ℚ} {c : Col} (h : ∀ x ∈ c.cells, x.isNum) :
    imputeCol d c = c := by
  unfold imputeCol
  rw [any_isNa_false_of_num h]
  simp

theorem numColFix {d : ℚ} {c : Col} (hd : c.dtype = .i64 ∨ c.dtype = .f64)
    (h : ∀ x ∈ c.cells, x.isNum) :
    imputeCol d (toNumericCol c) = c := by
  rw [toNumericCol_canon hd h, imputeCol_noNa h]

theorem isNum_of_01 {x : Cell} (h : x = .num 0 ∨ x = .num 1) : x.isNum := by
  rcases h with h | h <;> rw [h] <;> trivial

theorem boolOut_idem (d : ℚ) (c : Col) : boolOut d (boolOut d c) = boolOut d c := by
  unfold boolOut
  by_cases h : c.dtype = .i64 ∧ c.cells ≠ []
  · rw [if_pos h, if_pos h]
  · rw [if_neg h]
    rw [if_neg (by
      intro hc
      exact absurd hc.1 (by simp))]
    simp [List.map_map]

theorem map_na_map_fill (d : ℚ) (l : List Cell) :
    (l.map (fun _ => Cell.na)).map (fillNaCell d) = l.map (fun _ => Cell.num d) := by
  rw [List.map_map]
  apply List.map_congr_left
  intro x hx
  rfl

theorem map_na_map_toNumeric (l : List Cell) :
    (l.map (fun _ => Cell.na)).map toNumericCell = l.map (fun _ => Cell.na) := by
  rw [List.map_map]
  apply List.map_congr_left
  intro x hx
  rfl

theorem filterMap_numVal_na (l : List Cell) :
    (l.map (fun _ => Cell.na)).filterMap Cell.numVal = [] := by
  rw [List.filterMap_map, List.filterMap_eq_nil_iff]
  intro a ha
  rfl

/-- The boolean-column round trip on a canonical `{0,1}` column equals
`boolOut`. -/
theorem boolColFix {d : ℚ} {c : Col} (hd : c.dtype = .i64 ∨ c.dtype = .f64)
    (h01 : ∀ x ∈ c.cells, x = .num 0 ∨ x = .num 1) :
    imputeCol d (toNumericCol (wordMapCol true MAP_SIMNAO c)) = boolOut d c := by
  have hnum : ∀ x ∈ c.cells, x.isNum := fun x hx => isNum_of_01 (h01 x hx)
  rcases hd with hd | hd
  · -- int64: the cells stringify as "0"/"1" and map onto themselves
    have hmap : c.cells.map (fun x => cellOfLookup (lookupMap MAP_SIMNAO
        (pyLower (pyStrip (astypeStr c.dtype x))))) = c.cells := by
      rw [List.map_congr_left (g := id) ?_, List.map_id]
      intro x hx
      rcases h01 x hx with h | h
      all_goals
        rw [h, hd]
        decide
    cases hcells : c.cells with
    | nil =>
      have hw : wordMapCol true MAP_SIMNAO c = ⟨.f64, []⟩ := by
        unfold wordMapCol mkMappedCol mappedDtype
        rw [hcells]
        rfl
      rw [hw]
      rw [show toNumericCol ⟨.f64, []⟩ = ⟨.f64, []⟩ from rfl]
      rw [show imputeCol d ⟨.f64, []⟩ = ⟨.f64, []⟩ from rfl]
      unfold boolOut
      rw [if_neg (by
        intro hc
        exact hc.2 hcells)]
      rw [hcells]
      rfl
    | cons y ys =>
      have hw : wordMapCol true MAP_SIMNAO c = c := by
        unfold wordMapCol mkMappedCol
        rw [hmap]
        unfold mappedDtype
        rw [if_pos (by
          rw [any_isNa_false_of_num hnum, hcells]
          rfl)]
        rw [← hd]
      rw [hw, numColFix (Or.inl hd) hnum]
      unfold boolOut
      rw [if_pos ⟨hd, by rw [hcells]; simp⟩]
  · -- float64: the cells stringify as "0.0"/"1.0", match nothing, go NaN,
    -- and the whole column is imputed with the default
    have hmap : c.cells.map (fun x => cellOfLookup (lookupMap MAP_SIMNAO
        (pyLower (pyStrip (astypeStr c.dtype x))))) = c.cells.map (fun _ => .na) := by
      apply List.map_congr_left
      intro x hx
      rcases h01 x hx with h | h
      all_goals
        rw [h, hd]
        decide
    cases hcells : c.cells with
    | nil =>
      have hw : wordMapCol true MAP_SIMNAO c = ⟨.f64, []⟩ := by
        unfold wordMapCol mkMappedCol mappedDtype
        rw [hcells]
        rfl
      rw [hw]
      rw [show toNumericCol ⟨.f64, []⟩ = ⟨.f64, []⟩ from rfl]
      rw [show imputeCol d ⟨.f64, []⟩ = ⟨.f64, []⟩ from rfl]
      unfold boolOut
      rw [if_neg (by
        intro hc
        rw [hd] at hc
        exact absurd hc.1 (by simp))]
      rw [hcells]
      rfl
    | cons y ys =>
      have hw : wordMapCol true MAP_SIMNAO c = ⟨.f64, c.cells.map (fun _ => .na)⟩ := by
        unfold wordMapCol mkMappedCol
        rw [hmap]
        unfold mappedDtype
        rw [if_neg (by
          rw [hcells]
          simp [Cell.isNa])]
      rw [hw]
      have htn : toNumericCol ⟨.f64, c.cells.map (fun _ => .na)⟩
          = ⟨.f64, c.cells.map (fun _ => .na)⟩ := by
        show (⟨Dtype.f64, (c.cells.map (fun _ => Cell.na)).map toNumericCell⟩ : Col) = _
        rw [map_na_map_toNumeric]
      rw [htn]
      have himp : imputeCol d ⟨.f64, c.cells.map (fun _ => .na)⟩
          = ⟨.f64, c.cells.map (fun _ => .num d)⟩ := by
        unfold imputeCol
        rw [if_pos (by
          rw [hcells]
          simp [Cell.isNa])]
        rw [filterMap_numVal_na]
        show (⟨Dtype.f64, (c.cells.map (fun _ => Cell.na)).map (fillNaCell d)⟩ : Col) = _
        rw [map_na_map_fill]
      rw [himp]
      unfold boolOut
      rw [if_neg (by
        intro hc
        rw [hd] at hc
        exact absurd hc.1 (by simp))]

/-! ### Tracking canonical columns through the pipeline -/

theorem find_tail9_of_d7 {d1 : DF} {f : String} {c : Col} (hf : f ∈ features)
    (h7 : (d7of d1).find f = some c) :
    (tail9 d1).find f = some (imputeCol (defaultFor f) (toNumericCol c)) := by
  have hhc : (d7of d1).hasCol f = true := (hasCol_iff_find _ f).mpr ⟨c, h7⟩
  have h8 : (stepSynth (d7of d1)).find f = some c := by
    rw [find_stepSynth, if_neg (by
      intro hcc
      rw [hhc] at hcc
      exact absurd hcc.2 (by simp))]
    exact h7
  show (stepImpute (stepToNumeric (stepSynth (d7of d1)))).find f = _
  unfold stepImpute stepToNumeric
  rw [find_applyAll _ _ _ _ features_nodup, if_pos hf,
    find_applyAll _ _ _ _ features_nodup, if_pos hf, h8]
  rfl

theorem find_d7_recicl (d1 : DF) :
    (d7of d1).find "reciclavel"
      = (d1.find "reciclavel").map (wordMapCol true MAP_SIMNAO) := by
  simp only [d7of, stepSimNao]
  rw [stepMelting_find_ne _ _ (by decide),
    find_transformCol, if_neg (by decide),
    find_transformCol, if_pos rfl,
    stepAlias_find_ne _ _ _ _ _ _ (by decide),
    stepAlias_find_ne _ _ _ _ _ _ (by decide),
    stepAlias_find_ne _ _ _ _ _ _ (by decide)]

theorem find_d7_bio (d1 : DF) :
    (d7of d1).find "biodegradavel"
      = (d1.find "biodegradavel").map (wordMapCol true MAP_SIMNAO) := by
  simp only [d7of, stepSimNao]
  rw [stepMelting_find_ne _ _ (by decide),
    find_transformCol, if_pos rfl,
    find_transformCol, if_neg (by decide),
    stepAlias_find_ne _ _ _ _ _ _ (by decide),
    stepAlias_find_ne _ _ _ _ _ _ (by decide),
    stepAlias_find_ne _ _ _ _ _ _ (by decide)]

theorem canonicalCol_elim {o : Option Col} (h : CanonicalCol o) :
    ∃ c, o = some c ∧ (c.dtype = .i64 ∨ c.dtype = .f64) ∧ c.WFd
      ∧ ∀ x ∈ c.cells, x.isNum := by
  cases o with
  | none => exact absurd h (by simp [CanonicalCol])
  | some c => exact ⟨c, rfl, h⟩

theorem hasCol_of_canonical {df : DF} {f : String} (hC : Canonical df)
    (hf : f ∈ features) : df.hasCol f = true := by
  obtain ⟨c, hc, -⟩ := canonicalCol_elim (hC f hf)
  exact (hasCol_iff_find df f).mpr ⟨c, hc⟩

theorem hasCol_eq_of_find_eq {a b : DF} {m : String} (h : a.find m = b.find m) :
    a.hasCol m = b.hasCol m := by
  cases hb : b.hasCol m with
  | true =>
    obtain ⟨c, hc⟩ := (hasCol_iff_find b m).mp hb
    exact (hasCol_iff_find a m).mpr ⟨c, by rw [h]; exact hc⟩
  | false =>
    cases ha : a.hasCol m with
    | false => rfl
    | true =>
      obtain ⟨c, hc⟩ := (hasCol_iff_find a m).mp ha
      rw [h, hasCol_false_find b m hb] at hc
      exact absurd hc (by simp)

theorem assemble_congr (a b : DF) : ∀ ns : List String,
    (∀ m ∈ ns, a.find m = b.find m) → assemble a ns = assemble b ns := by
  intro ns
  induction ns with
  | nil => intro h; rfl
  | cons n t ih =>
    intro h
    show List.filterMap _ (n :: t) = List.filterMap _ (n :: t)
    rw [List.filterMap_cons, List.filterMap_cons, h n (List.mem_cons_self n t)]
    have ht := ih (fun m hm => h m (List.mem_cons_of_mem n hm))
    unfold assemble at ht
    rw [ht]

/-- `stepKeep` only looks at row count, at the presence of the two identity
columns, and at the columns behind the keep-list names. -/
theorem stepKeep_congr {a b : DF} (hn : a.nrows = b.nrows)
    (hid : a.hasCol "id" = b.hasCol "id")
    (hnm : a.hasCol "nome_material" = b.hasCol "nome_material")
    (hf : ∀ m ∈ ("id" :: "nome_material" :: features), a.find m = b.find m) :
    stepKeep a = stepKeep b := by
  have hfilter : (["id", "nome_material"].filter (fun n => a.hasCol n))
      = ["id", "nome_material"].filter (fun n => b.hasCol n) := by
    simp only [List.filter_cons, List.filter_nil, hid, hnm]
  unfold stepKeep
  rw [hn, hfilter]
  have hasm : assemble a ((["id", "nome_material"].filter (fun n => b.hasCol n)) ++ features)
      = assemble b ((["id", "nome_material"].filter (fun n => b.hasCol n)) ++ features) := by
    apply assemble_congr
    intro m hm
    apply hf
    rcases List.mem_append.mp hm with h | h
    · have h1 := (List.mem_filter.mp h).1
      simp only [List.mem_cons, List.mem_singleton, List.not_mem_nil, or_false] at h1
      rcases h1 with h2 | h2
      · rw [h2]
        exact List.mem_cons_self _ _
      · rw [h2]
        exact List.mem_cons_of_mem _ (List.mem_cons_self _ _)
    · exact List.mem_cons_of_mem _ (List.mem_cons_of_mem _ h)
  rw [hasm]

theorem find_stepKeep_feature (df : DF) (m : String) (hm : m ∈ features) :
    (stepKeep df).find m = df.find m := by
  rw [find_stepKeep, if_pos (List.mem_append.mpr (Or.inr hm))]

theorem find_stepKeep_idcol (df : DF) (m : String)
    (hm : m ∈ (["id", "nome_material"] : List String)) :
    (stepKeep df).find m = df.find m := by
  rw [find_stepKeep]
  by_cases hb : df.hasCol m = true
  · rw [if_pos (List.mem_append.mpr (Or.inl (List.mem_filter.mpr ⟨hm, hb⟩)))]
  · rw [hasCol_false_find df m (by
      cases h : df.hasCol m with
      | true => exact absurd h hb
      | false => rfl)]
    split <;> rfl

theorem boolOut_canonical {d : ℚ} {c : Col}
    (h : (c.dtype = .i64 ∨ c.dtype = .f64) ∧ c.WFd ∧ ∀ x ∈ c.cells, x.isNum) :
    ((boolOut d c).dtype = .i64 ∨ (boolOut d c).dtype = .f64)
    ∧ (boolOut d c).WFd ∧ ∀ x ∈ (boolOut d c).cells, x.isNum := by
  unfold boolOut
  by_cases hc : c.dtype = .i64 ∧ c.cells ≠ []
  · rw [if_pos hc]
    exact h
  · rw [if_neg hc]
    refine ⟨Or.inr rfl, ?_, ?_⟩
    · show ∀ x ∈ (c.cells.map (fun _ => Cell.num d)), x.numOrNa
      intro x hx
      obtain ⟨y, hy, he⟩ := List.mem_map.mp hx
      rw [← he]
      trivial
    · intro x hx
      obtain ⟨y, hy, he⟩ := List.mem_map.mp hx
      rw [← he]
      trivial

theorem boolOut_bool01 {d : ℚ} {c : Col} (hd : d = 0 ∨ d = 1)
    (h : ∀ x ∈ c.cells, x = .num 0 ∨ x = .num 1) :
    ∀ x ∈ (boolOut d c).cells, x = .num 0 ∨ x = .num 1 := by
  unfold boolOut
  by_cases hc : c.dtype = .i64 ∧ c.cells ≠ []
  · rw [if_pos hc]
    exact h
  · rw [if_neg hc]
    intro x hx
    obtain ⟨y, hy, he⟩ := List.mem_map.mp hx
    rcases hd with hd | hd
    · exact Or.inl (by rw [← he, hd])
    · exact Or.inr (by rw [← he, hd])

/-- On a canonical table with `{0,1}` boolean columns the Normalizer
succeeds and returns exactly `canonOut`. -/
theorem mapearCanonical {df : DF} (hC : Canonical df) (hB : Bool01 df) :
    mapear_valores df = .ok (canonOut df) := by
  have hpc : pipelineRest df = canonOut df := by
    unfold pipelineRest canonOut
    apply stepKeep_congr
    · rw [nrows_tail9, nrows_transformCol, nrows_transformCol]
    · rw [hasCol_tail9_nonfeature _ _ (by decide), hasCol_transformCol,
        hasCol_transformCol]
    · rw [hasCol_tail9_nonfeature _ _ (by decide), hasCol_transformCol,
        hasCol_transformCol]
    · intro m hm
      simp only [features, List.mem_cons, List.mem_singleton,
        List.not_mem_nil, or_false] at hm
      rcases hm with h | h | h | h | h | h | h | h | h
      -- the two identity columns pass through both sides untouched
      · rw [h, find_tail9_nonfeature _ _ (by decide),
          find_transformCol, if_neg (by decide),
          find_transformCol, if_neg (by decide)]
      · rw [h, find_tail9_nonfeature _ _ (by decide),
          find_transformCol, if_neg (by decide),
          find_transformCol, if_neg (by decide)]
      -- the five non-boolean canonical columns are fixed points
      · obtain ⟨c, hfind, hdt, hwf, hnum⟩ := canonicalCol_elim (hC m (by rw [h]; decide))
        rw [h] at hfind ⊢
        rw [find_tail9_of_d7 (by decide) (find_chain_to_d7 (by decide) hfind),
          numColFix hdt hnum,
          find_transformCol, if_neg (by decide),
          find_transformCol, if_neg (by decide), hfind]
      · obtain ⟨c, hfind, hdt, hwf, hnum⟩ := canonicalCol_elim (hC m (by rw [h]; decide))
        rw [h] at hfind ⊢
        rw [find_tail9_of_d7 (by decide) (find_chain_to_d7 (by decide) hfind),
          numColFix hdt hnum,
          find_transformCol, if_neg (by decide),
          find_transformCol, if_neg (by decide), hfind]
      · obtain ⟨c, hfind, hdt, hwf, hnum⟩ := canonicalCol_elim (hC m (by rw [h]; decide))
        rw [h] at hfind ⊢
        rw [find_tail9_of_d7 (by decide) (find_chain_to_d7 (by decide) hfind),
          numColFix hdt hnum,
          find_transformCol, if_neg (by decide),
          find_transformCol, if_neg (by decide), hfind]
      · obtain ⟨c, hfind, hdt, hwf, hnum⟩ := canonicalCol_elim (hC m (by rw [h]; decide))
        rw [h] at hfind ⊢
        rw [find_tail9_of_d7 (by decide) (find_chain_to_d7 (by decide) hfind),
          numColFix hdt hnum,
          find_transformCol, if_neg (by decide),
          find_transformCol, if_neg (by decide), hfind]
      -- reciclavel
      · obtain ⟨c, hfind, hdt, hwf, hnum⟩ := canonicalCol_elim
          (hC "reciclavel" (by decide))
        have hb : Bool01Col (df.find "reciclavel") := hB.1
        rw [hfind] at hb
        have h7 : (d7of df).find "reciclavel"
            = some (wordMapCol true MAP_SIMNAO c) := by
          rw [find_d7_recicl, hfind]
          rfl
        rw [h, find_tail9_of_d7 (by decide) h7, boolColFix hdt hb,
          find_transformCol, if_neg (by decide),
          find_transformCol, if_pos rfl, hfind,
          show defaultFor "reciclavel" = (1 : ℚ) from by simp [defaultFor]]
        rfl
      -- biodegradavel
      · obtain ⟨c, hfind, hdt, hwf, hnum⟩ := canonicalCol_elim
          (hC "biodegradavel" (by decide))
        have hb : Bool01Col (df.find "biodegradavel") := hB.2
        rw [hfind] at hb
        have h7 : (d7of df).find "biodegradavel"
            = some (wordMapCol true MAP_SIMNAO c) := by
          rw [find_d7_bio, hfind]
          rfl
        rw [h, find_tail9_of_d7 (by decide) h7, boolColFix hdt hb,
          find_transformCol, if_pos rfl,
          find_transformCol, if_neg (by decide), hfind,
          show defaultFor "biodegradavel" = (0 : ℚ) from by simp [defaultFor]]
        rfl
      -- melting_point_C
      · obtain ⟨c, hfind, hdt, hwf, hnum⟩ := canonicalCol_elim (hC m (by rw [h]; decide))
        rw [h] at hfind ⊢
        rw [find_tail9_of_d7 (by decide) (find_chain_to_d7 (by decide) hfind),
          numColFix hdt hnum,
          find_transformCol, if_neg (by decide),
          find_transformCol, if_neg (by decide), hfind]
  have hcusto : df.hasCol "custo_index" = true := hasCol_of_canonical hC (by decide)
  unfold mapear_valores
  rw [stepCusto_present hcusto]
  show Except.ok (pipelineRest df) = Except.ok (canonOut df)
  rw [hpc]

/-- The Normalizer's output on a canonical `{0,1}` table is itself
canonical. -/
theorem canonical_canonOut {df : DF} (hC : Canonical df) (hB : Bool01 df) :
    Canonical (canonOut df) := by
  intro f hf
  have hf2 := hf
  simp only [features, List.mem_cons, List.mem_singleton,
    List.not_mem_nil, or_false] at hf2
  unfold canonOut
  rw [find_stepKeep_feature _ _ hf]
  rcases hf2 with h | h | h | h | h | h | h
  · rw [h]
    obtain ⟨c, hfind, hdt, hwf, hnum⟩ := canonicalCol_elim (hC f hf)
    rw [h] at hfind
    rw [find_transformCol, if_neg (by decide), find_transformCol,
      if_neg (by decide), hfind]
    exact ⟨hdt, hwf, hnum⟩
  · rw [h]
    obtain ⟨c, hfind, hdt, hwf, hnum⟩ := canonicalCol_elim (hC f hf)
    rw [h] at hfind
    rw [find_transformCol, if_neg (by decide), find_transformCol,
      if_neg (by decide), hfind]
    exact ⟨hdt, hwf, hnum⟩
  · rw [h]
    obtain ⟨c, hfind, hdt, hwf, hnum⟩ := canonicalCol_elim (hC f hf)
    rw [h] at hfind
    rw [find_transformCol, if_neg (by decide), find_transformCol,
      if_neg (by decide), hfind]
    exact ⟨hdt, hwf, hnum⟩
  · rw [h]
    obtain ⟨c, hfind, hdt, hwf, hnum⟩ := canonicalCol_elim (hC f hf)
    rw [h] at hfind
    rw [find_transformCol, if_neg (by decide), find_transformCol,
      if_neg (by decide), hfind]
    exact ⟨hdt, hwf, hnum⟩
  · rw [h]
    obtain ⟨c, hfind, hdt, hwf, hnum⟩ := canonicalCol_elim (hC f hf)
    rw [h] at hfind
    rw [find_transformCol, if_neg (by decide), find_transformCol,
      if_pos rfl, hfind]
    show CanonicalCol (some (boolOut 1 c))
    exact boolOut_canonical ⟨hdt, hwf, hnum⟩
  · rw [h]
    obtain ⟨c, hfind, hdt, hwf, hnum⟩ := canonicalCol_elim (hC f hf)
    rw [h] at hfind
    rw [find_transformCol, if_pos rfl, find_transformCol,
      if_neg (by decide), hfind]
    show CanonicalCol (some (boolOut 0 c))
    exact boolOut_canonical ⟨hdt, hwf, hnum⟩
  · rw [h]
    obtain ⟨c, hfind, hdt, hwf, hnum⟩ := canonicalCol_elim (hC f hf)
    rw [h] at hfind
    rw [find_transformCol, if_neg (by decide), find_transformCol,
      if_neg (by decide), hfind]
    exact ⟨hdt, hwf, hnum⟩

/-- The Normalizer's output on a canonical `{0,1}` table keeps its boolean
columns in `{0,1}`. -/
theorem bool01_canonOut {df : DF} (hC : Canonical df) (hB : Bool01 df) :
    Bool01 (canonOut df) := by
  constructor
  · obtain ⟨c, hfind, hdt, hwf, hnum⟩ := canonicalCol_elim
      (hC "reciclavel" (by decide))
    have hb : Bool01Col (df.find "reciclavel") := hB.1
    rw [hfind] at hb
    unfold canonOut
    rw [find_stepKeep_feature _ _ (by decide), find_transformCol,
      if_neg (by decide), find_transformCol, if_pos rfl, hfind]
    show Bool01Col (some (boolOut 1 c))
    exact boolOut_bool01 (Or.inr rfl) hb
  · obtain ⟨c, hfind, hdt, hwf, hnum⟩ := canonicalCol_elim
      (hC "biodegradavel" (by decide))
    have hb : Bool01Col (df.find "biodegradavel") := hB.2
    rw [hfind] at hb
    unfold canonOut
    rw [find_stepKeep_feature _ _ (by decide), find_transformCol,
      if_pos rfl, find_transformCol, if_neg (by decide), hfind]
    show Bool01Col (some (boolOut 0 c))
    exact boolOut_bool01 (Or.inl rfl) hb

/-- `canonOut` is a fixpoint operator on canonical `{0,1}` tables. -/
theorem canonOut_fix {df : DF} (hC : Canonical df) (hB : Bool01 df) :
    canonOut (canonOut df) = canonOut df := by
  show stepKeep (((canonOut df).transformCol "reciclavel" (boolOut 1)).transformCol
      "biodegradavel" (boolOut 0))
    = stepKeep ((df.transformCol "reciclavel" (boolOut 1)).transformCol
      "biodegradavel" (boolOut 0))
  apply stepKeep_congr
  · simp only [nrows_transformCol]
    show (stepKeep ((df.transformCol "reciclavel" (boolOut 1)).transformCol
      "biodegradavel" (boolOut 0))).nrows = df.nrows
    rw [nrows_stepKeep]
    simp only [nrows_transformCol]
  · simp only [hasCol_transformCol]
    apply hasCol_eq_of_find_eq
    show (stepKeep ((df.transformCol "reciclavel" (boolOut 1)).transformCol
      "biodegradavel" (boolOut 0))).find "id" = df.find "id"
    rw [find_stepKeep_idcol _ _ (by decide), find_transformCol,
      if_neg (by decide), find_transformCol, if_neg (by decide)]
  · simp only [hasCol_transformCol]
    apply hasCol_eq_of_find_eq
    show (stepKeep ((df.transformCol "reciclavel" (boolOut 1)).transformCol
      "biodegradavel" (boolOut 0))).find "nome_material" = df.find "nome_material"
    rw [find_stepKeep_idcol _ _ (by decide), find_transformCol,
      if_neg (by decide), find_transformCol, if_neg (by decide)]
  · intro m hm
    simp only [features, List.mem_cons, List.mem_singleton,
      List.not_mem_nil, or_false] at hm
    rcases hm with h | h | h | h | h | h | h | h | h
    · rw [h, find_transformCol, if_neg (by decide), find_transformCol,
        if_neg (by decide), find_transformCol, if_neg (by decide),
        find_transformCol, if_neg (by decide)]
      unfold canonOut
      rw [find_stepKeep_idcol _ _ (by decide), find_transformCol,
        if_neg (by decide), find_transformCol, if_neg (by decide)]
    · rw [h, find_transformCol, if_neg (by decide), find_transformCol,
        if_neg (by decide), find_transformCol, if_neg (by decide),
        find_transformCol, if_neg (by decide)]
      unfold canonOut
      rw [find_stepKeep_idcol _ _ (by decide), find_transformCol,
        if_neg (by decide), find_transformCol, if_neg (by decide)]
    · rw [h, find_transformCol, if_neg (by decide), find_transformCol,
        if_neg (by decide), find_transformCol, if_neg (by decide),
        find_transformCol, if_neg (by decide)]
      unfold canonOut
      rw [find_stepKeep_feature _ _ (by decide), find_transformCol,
        if_neg (by decide), find_transformCol, if_neg (by decide)]
    · rw [h, find_transformCol, if_neg (by decide), find_transformCol,
        if_neg (by decide), find_transformCol, if_neg (by decide),
        find_transformCol, if_neg (by decide)]
      unfold canonOut
      rw [find_stepKeep_feature _ _ (by decide), find_transformCol,
        if_neg (by decide), find_transformCol, if_neg (by decide)]
    · rw [h, find_transformCol, if_neg (by decide), find_transformCol,
        if_neg (by decide), find_transformCol, if_neg (by decide),
        find_transformCol, if_neg (by decide)]
      unfold canonOut
      rw [find_stepKeep_feature _ _ (by decide), find_transformCol,
        if_neg (by decide), find_transformCol, if_neg (by decide)]
    · rw [h, find_transformCol, if_neg (by decide), find_transformCol,
        if_neg (by decide), find_transformCol, if_neg (by decide),
        find_transformCol, if_neg (by decide)]
      unfold canonOut
      rw [find_stepKeep_feature _ _ (by decide), find_transformCol,
        if_neg (by decide), find_transformCol, if_neg (by decide)]
    · -- reciclavel: the outer pass re-applies `boolOut 1`, which is idempotent
      obtain ⟨c, hfind, hdt, hwf, hnum⟩ := canonicalCol_elim
        (hC "reciclavel" (by decide))
      have hBr : ((df.transformCol "reciclavel" (boolOut 1)).transformCol
          "biodegradavel" (boolOut 0)).find "reciclavel" = some (boolOut 1 c) := by
        rw [find_transformCol, if_neg (by decide), find_transformCol,
          if_pos rfl, hfind]
        rfl
      have hu : (canonOut df).find "reciclavel" = some (boolOut 1 c) := by
        unfold canonOut
        rw [find_stepKeep_feature _ _ (by decide)]
        exact hBr
      rw [h, find_transformCol, if_neg (by decide), find_transformCol,
        if_pos rfl, hu, hBr]
      show some (boolOut 1 (boolOut 1 c)) = some (boolOut 1 c)
      rw [boolOut_idem]
    · -- biodegradavel: same with `boolOut 0`
      obtain ⟨c, hfind, hdt, hwf, hnum⟩ := canonicalCol_elim
        (hC "biodegradavel" (by decide))
      have hBr : ((df.transformCol "reciclavel" (boolOut 1)).transformCol
          "biodegradavel" (boolOut 0)).find "biodegradavel" = some (boolOut 0 c) := by
        rw [find_transformCol, if_pos rfl, find_transformCol,
          if_neg (by decide), hfind]
        rfl
      have hu : (canonOut df).find "biodegradavel" = some (boolOut 0 c) := by
        unfold canonOut
        rw [find_stepKeep_feature _ _ (by decide)]
        exact hBr
      rw [h, find_transformCol, if_pos rfl, find_transformCol,
        if_neg (by decide), hu, hBr]
      show some (boolOut 0 (boolOut 0 c)) = some (boolOut 0 c)
      rw [boolOut_idem]
    · rw [h, find_transformCol, if_neg (by decide), find_transformCol,
        if_neg (by decide), find_transformCol, if_neg (by decide),
        find_transformCol, if_neg (by decide)]
      unfold canonOut
      rw [find_stepKeep_feature _ _ (by decide), find_transformCol,
        if_neg (by decide), find_transformCol, if_neg (by decide)]

/-- C6: the idempotence claim fails as stated.  `t6` is in canonical form
(all seven canonical columns present, numeric, complete), yet applying
`mapear_valores` twice differs from applying it once: its integer
`reciclavel` column holds a 2, so the first pass re-maps the column through
the `"sim"/"nao"/"1"/"0"` vocabulary (sending 2 to NaN and imputing the
median 1/2, as a float column), and the second pass then stringifies the
floats as `"0.0"/"1.0"/"0.5"`, which match no vocabulary key, so the whole
column collapses to the default 1. -/
theorem C6_counterexample :
    Canonical t6 ∧ (mapear_valores t6).bind mapear_valores ≠ mapear_valores t6 := by
  with_unfolding_all decide

/-- C6 (amended): on a table in canonical form whose two boolean columns
moreover take only the values 0 and 1, the Normalizer is idempotent: the
first application succeeds with some output `u`, and a second application
returns `u` unchanged. -/
theorem C6_idempotent_amended {t : DF} (hC : Canonical t) (hB : Bool01 t) :
    ∃ u, mapear_valores t = .ok u ∧ mapear_valores u = .ok u := by
  refine ⟨canonOut t, mapearCanonical hC hB, ?_⟩
  rw [mapearCanonical (canonical_canonOut hC hB) (bool01_canonOut hC hB),
    canonOut_fix hC hB]

theorem C6_idempotent_amended_witness :
    Canonical t6w ∧ Bool01 t6w
    ∧ ∃ u, mapear_valores t6w = .ok u ∧ mapear_valores u = .ok u :=
  ⟨by with_unfolding_all decide, by with_unfolding_all decide,
    C6_idempotent_amended (by with_unfolding_all decide)
      (by with_unfolding_all decide)⟩

end IAMat